import Mathlib

/-!
# fishhook: rebinding registry, section patcher and entry points

A shallow embedding of `src/fishhook.c` (LP64 build: pointers are 8 bytes,
`nlist_64` is 16 bytes, `uintptr_t` arithmetic is modulo `2^64`).

Modelling conventions.

* Writable process memory is a map from an address to the pointer-sized word
  stored there.  Every store the program makes is a `void *` store: either into
  a pointer slot `indirect_symbol_bindings[i]` or through a `replaced` pointer.
* The link-edit tables (indirect symbol table, symbol table, string table) are
  read through a separate read-only memory: the program never writes them.
* `struct rebindings_entry *` is a Lean list of nodes, `NULL` is `[]` and the
  `next` field is the tail of the list.
* A C array with its element count is a Lean list.
* The loop counters `i` and `j` are `uint` in the source; the model covers
  sections with fewer than `2^32` slots and nodes with fewer than `2^32`
  entries, where the counters do not wrap.
* Every store through a `replaced` pointer (source line 154) is also recorded
  in a ghost list, so that "writes / does not write a capture output" can be
  stated.
-/

namespace Fishhook

/-! ## Platform constants (`<mach-o/loader.h>`, `<mach-o/nlist.h>`) -/

/-- Load command number of a 64-bit segment command. -/
def LC_SEGMENT_64 : Nat := 0x19
/-- On LP64 the architecture dependent segment command is `LC_SEGMENT_64`. -/
def LC_SEGMENT_ARCH_DEPENDENT : Nat := LC_SEGMENT_64
/-- Load command number of the symbol table command. -/
def LC_SYMTAB : Nat := 0x2
/-- Load command number of the dynamic symbol table command. -/
def LC_DYSYMTAB : Nat := 0xb
/-- Mask of the section type inside `flags`. -/
def SECTION_TYPE : Nat := 0xff
/-- Section type of non-lazy symbol pointers. -/
def S_NON_LAZY_SYMBOL_POINTERS : Nat := 0x6
/-- Section type of lazy symbol pointers. -/
def S_LAZY_SYMBOL_POINTERS : Nat := 0x7
/-- Indirect symbol table sentinel for a local symbol. -/
def INDIRECT_SYMBOL_LOCAL : Nat := 0x80000000
/-- Indirect symbol table sentinel for an absolute symbol. -/
def INDIRECT_SYMBOL_ABS : Nat := 0x40000000
/-- The bytes of the string `__LINKEDIT`. -/
def SEG_LINKEDIT : List Nat := [95, 95, 76, 73, 78, 75, 69, 68, 73, 84]
/-- The bytes of the string `__DATA`. -/
def SEG_DATA : List Nat := [95, 95, 68, 65, 84, 65]
/-- The bytes of the string `__DATA_CONST`. -/
def SEG_DATA_CONST : List Nat := [95, 95, 68, 65, 84, 65, 95, 67, 79, 78, 83, 84]

/-- The value of `sizeof(void *)`. -/
def sizeof_ptr : Nat := 8
/-- The value of `sizeof(uint32_t)`. -/
def sizeof_uint32 : Nat := 4
/-- The value of `sizeof(nlist_t)` (`struct nlist_64`). -/
def sizeof_nlist : Nat := 16
/-- Number of values of `uintptr_t`. -/
def UINTPTR_MOD : Nat := 2 ^ 64

/-- The cast `(uintptr_t)slide` of a signed `intptr_t`. -/
def to_uintptr (slide : Int) : Nat := (slide % (UINTPTR_MOD : Int)).toNat
/-- Addition of `uintptr_t` values. -/
def uadd (a b : Nat) : Nat := (a + b) % UINTPTR_MOD
/-- Subtraction of `uintptr_t` values. -/
def usub (a b : Nat) : Nat := (a + (UINTPTR_MOD - b % UINTPTR_MOD)) % UINTPTR_MOD

/-! ## Data model -/

/-- The `struct rebinding` of `fishhook.h`: `name` holds the bytes of the C
string (its terminating NUL is implicit), `replaced` is the address of the
capture output, `0` for `NULL`. -/
structure rebinding where
  name : List Nat
  replacement : Nat
  replaced : Nat
  deriving DecidableEq, Repr

/-- One node of the registry list (`struct rebindings_entry` without its `next`
field, which is the tail of the Lean list). -/
structure rebindings_entry where
  rebindings : List rebinding
  rebindings_nel : Nat
  deriving DecidableEq, Repr

/-- The fields of `section_t` the program reads. -/
structure section_t where
  addr : Nat
  size : Nat
  flags : Nat
  reserved1 : Nat
  deriving DecidableEq, Repr

/-- A load command, seen through the three layouts the program casts it to
(`segment_command_t`, `symtab_command`, `dysymtab_command`); `sects` are the
`nsects` sections that follow a segment command. -/
structure load_command where
  cmd : Nat
  segname : List Nat
  vmaddr : Nat
  fileoff : Nat
  sects : List section_t
  symoff : Nat
  stroff : Nat
  indirectsymoff : Nat
  nindirectsyms : Nat
  deriving DecidableEq, Repr

/-- An image header: `dladdr` is what the loader's `dladdr(header, &info)`
returns for it, `cmds` are its `ncmds` load commands. -/
structure mach_header where
  dladdr : Nat
  cmds : List load_command
  deriving DecidableEq, Repr

/-- Read-only image memory: the `uint32_t` and the `char` found at an address. -/
structure ROMem where
  u32 : Nat → Nat
  byte : Nat → Nat

/-- One store through a `replaced` pointer: the slot on whose account it was
made, the address written and the value written. -/
structure Capture where
  slot : Nat
  out : Nat
  value : Nat
  deriving DecidableEq, Repr

/-- Writable memory together with the record of capture stores, newest first. -/
structure World where
  mem : Nat → Nat
  captured : List Capture

/-- Store of a pointer-sized word. -/
def store (mem : Nat → Nat) (a v : Nat) : Nat → Nat :=
  fun x => if x = a then v else mem x

/-! ## C library helpers -/

/-- The result of `strcmp(a, b)` on two byte strings, each ending at its first
NUL or at the end of the list. -/
def strcmp : List Nat → List Nat → Int
  | [], b => 0 - (b.headD 0 : Int)
  | x :: a, b =>
    if x ≠ b.headD 0 then (x : Int) - (b.headD 0 : Int)
    else if x = 0 then 0
    else strcmp a b.tail

/-- The result of `strcmp(p, name)` for a string read from image memory at
address `p` and a caller string `name`. -/
def strcmp_at (byte : Nat → Nat) (p : Nat) : List Nat → Int
  | [] => (byte p : Int) - 0
  | c :: cs =>
    if byte p ≠ c then (byte p : Int) - (c : Int)
    else if c = 0 then 0
    else strcmp_at byte (p + 1) cs

/-- The result of `strnlen(p, 2)`. -/
def strnlen2 (byte : Nat → Nat) (p : Nat) : Nat :=
  if byte p = 0 then 0 else if byte (p + 1) = 0 then 1 else 2

/-! ## Registry -/

/-- Source lines 60-89.  `malloc_entry` and `malloc_rebindings` tell whether the
first and the second `malloc` return a non-NULL pointer.  Returns the status
and the new value of `*rebindings_head`. -/
def prepend_rebindings (malloc_entry malloc_rebindings : Bool)
    (rebindings_head : List rebindings_entry) (rebindings : List rebinding) (nel : Nat) :
    Int × List rebindings_entry :=
  if !malloc_entry then (-1, rebindings_head)
  else if !malloc_rebindings then (-1, rebindings_head)
  else (0, { rebindings := rebindings.take nel, rebindings_nel := nel } :: rebindings_head)

/-! ## Section patcher -/

/-- Source lines 150-158: the capture store under its guard, then the store of
the replacement into the slot. -/
def apply_rebinding (r : rebinding) (slot : Nat) (w : World) : World :=
  let w1 : World :=
    if r.replaced ≠ 0 ∧ w.mem slot ≠ r.replacement then
      { mem := store w.mem r.replaced (w.mem slot),
        captured := { slot := slot, out := r.replaced, value := w.mem slot } :: w.captured }
    else w
  { mem := store w1.mem slot r.replacement, captured := w1.captured }

/-- Source lines 146-161: the `for` loop over the entries of one node; `some`
is the jump to `symbol_loop` after a match, `none` is falling out of the loop. -/
def search_entry (ro : ROMem) (name1 slot : Nat) : List rebinding → World → Option World
  | [], _ => none
  | r :: rs, w =>
    if strcmp_at ro.byte name1 r.name = 0 then some (apply_rebinding r slot w)
    else search_entry ro name1 slot rs w

/-- Source lines 144-163: the `while (cur)` loop over the nodes. -/
def search_list (ro : ROMem) (name1 slot : Nat) : List rebindings_entry → World → World
  | [], w => w
  | cur :: next, w =>
    match search_entry ro name1 slot (cur.rebindings.take cur.rebindings_nel) w with
    | some w1 => w1
    | none => search_list ro name1 slot next w

/-- Source lines 113-164: the body of the loop over the slots, for slot `i`. -/
def slot_body (ro : ROMem) (rebindings : List rebindings_entry)
    (indirect_symbol_indices indirect_symbol_bindings symtab strtab : Nat)
    (w : World) (i : Nat) : World :=
  let symtab_index := ro.u32 (indirect_symbol_indices + sizeof_uint32 * i)
  if symtab_index = INDIRECT_SYMBOL_ABS ∨ symtab_index = INDIRECT_SYMBOL_LOCAL ∨
      symtab_index = (INDIRECT_SYMBOL_LOCAL ||| INDIRECT_SYMBOL_ABS) then w
  else
    let strtab_offset := ro.u32 (symtab + sizeof_nlist * symtab_index)
    let symbol_name := strtab + strtab_offset
    if strnlen2 ro.byte symbol_name < 2 then w
    else search_list ro (symbol_name + 1) (indirect_symbol_bindings + sizeof_ptr * i) rebindings w

/-- Source lines 91-166. -/
def perform_rebinding_with_section (ro : ROMem) (rebindings : List rebindings_entry)
    (sect : section_t) (slide : Int) (symtab strtab indirect_symtab : Nat) (w : World) : World :=
  let indirect_symbol_indices := indirect_symtab + sizeof_uint32 * sect.reserved1
  let indirect_symbol_bindings := uadd (to_uintptr slide) sect.addr
  (List.range (sect.size / sizeof_ptr)).foldl
    (slot_body ro rebindings indirect_symbol_indices indirect_symbol_bindings symtab strtab) w

/-! ## Image scan -/

/-- The three commands the first pass over the load commands looks for. -/
structure Located where
  linkedit_segment : Option load_command
  symtab_cmd : Option load_command
  dysymtab_cmd : Option load_command

/-- Source lines 196-207: one step of the first loop over the load commands. -/
def locate_step (acc : Located) (cur_seg_cmd : load_command) : Located :=
  if cur_seg_cmd.cmd = LC_SEGMENT_ARCH_DEPENDENT then
    if strcmp cur_seg_cmd.segname SEG_LINKEDIT = 0 then
      { acc with linkedit_segment := some cur_seg_cmd }
    else acc
  else if cur_seg_cmd.cmd = LC_SYMTAB then { acc with symtab_cmd := some cur_seg_cmd }
  else if cur_seg_cmd.cmd = LC_DYSYMTAB then { acc with dysymtab_cmd := some cur_seg_cmd }
  else acc

/-- Source lines 247-254: the two tests on one section of a data segment. -/
def section_step (ro : ROMem) (rebindings : List rebindings_entry) (slide : Int)
    (symtab strtab indirect_symtab : Nat) (w : World) (sect : section_t) : World :=
  let w1 :=
    if sect.flags &&& SECTION_TYPE = S_LAZY_SYMBOL_POINTERS then
      perform_rebinding_with_section ro rebindings sect slide symtab strtab indirect_symtab w
    else w
  if sect.flags &&& SECTION_TYPE = S_NON_LAZY_SYMBOL_POINTERS then
    perform_rebinding_with_section ro rebindings sect slide symtab strtab indirect_symtab w1
  else w1

/-- Source lines 240-256: one step of the second loop over the load commands. -/
def segment_step (ro : ROMem) (rebindings : List rebindings_entry) (slide : Int)
    (symtab strtab indirect_symtab : Nat) (w : World) (cur_seg_cmd : load_command) : World :=
  if cur_seg_cmd.cmd = LC_SEGMENT_ARCH_DEPENDENT then
    if strcmp cur_seg_cmd.segname SEG_DATA ≠ 0 ∧ strcmp cur_seg_cmd.segname SEG_DATA_CONST ≠ 0 then w
    else cur_seg_cmd.sects.foldl (section_step ro rebindings slide symtab strtab indirect_symtab) w
  else w

/-- Source lines 168-258. -/
def rebind_symbols_for_image (ro : ROMem) (rebindings : List rebindings_entry)
    (header : mach_header) (slide : Int) (w : World) : World :=
  if header.dladdr = 0 then w
  else
    let found := header.cmds.foldl locate_step
      { linkedit_segment := none, symtab_cmd := none, dysymtab_cmd := none }
    match found.symtab_cmd, found.dysymtab_cmd, found.linkedit_segment with
    | some symtab_cmd, some dysymtab_cmd, some linkedit_segment =>
      if dysymtab_cmd.nindirectsyms = 0 then w
      else
        let linkedit_base :=
          usub (uadd (to_uintptr slide) linkedit_segment.vmaddr) linkedit_segment.fileoff
        let symtab := uadd linkedit_base symtab_cmd.symoff
        let strtab := uadd linkedit_base symtab_cmd.stroff
        let indirect_symtab := uadd linkedit_base dysymtab_cmd.indirectsymoff
        header.cmds.foldl (segment_step ro rebindings slide symtab strtab indirect_symtab) w
    | _, _, _ => w

/-! ## Process state and entry points -/

/-- An image known to the loader: what `_dyld_get_image_header(i)` and
`_dyld_get_image_vmaddr_slide(i)` return for it. -/
structure loaded_image where
  header : mach_header
  slide : Int

/-- The state the entry points act on: the global `_rebindings_head`, the
writable memory with its capture record, the number of calls made so far to
`_dyld_register_func_for_add_image`, and the loader's table of images. -/
structure State where
  _rebindings_head : List rebindings_entry
  world : World
  add_image_calls : Nat
  images : List loaded_image

/-- Source lines 261-264. -/
def _rebind_symbols_for_image (ro : ROMem) (header : mach_header) (slide : Int) (s : State) :
    State :=
  { s with world := rebind_symbols_for_image ro s._rebindings_head header slide s.world }

/-- Modelled from the spec: the loader's `_dyld_register_func_for_add_image`,
which is not part of this repository.  It records the subscription and, as the
loader contract says, fires the callback once for every image already loaded. -/
def _dyld_register_func_for_add_image (ro : ROMem) (s : State) : State :=
  s.images.foldl (fun st img => _rebind_symbols_for_image ro img.header img.slide st)
    { s with add_image_calls := s.add_image_calls + 1 }

/-- Source lines 266-275. -/
def rebind_symbols_image (ro : ROMem) (malloc_entry malloc_rebindings : Bool)
    (header : mach_header) (slide : Int) (rebindings : List rebinding) (rebindings_nel : Nat)
    (s : State) : Int × State :=
  let r := prepend_rebindings malloc_entry malloc_rebindings [] rebindings rebindings_nel
  (r.1, { s with world := rebind_symbols_for_image ro r.2 header slide s.world })

/-- Source lines 282-322. -/
def rebind_symbols (ro : ROMem) (malloc_entry malloc_rebindings : Bool)
    (rebindings : List rebinding) (rebindings_nel : Nat) (s : State) : Int × State :=
  let r := prepend_rebindings malloc_entry malloc_rebindings s._rebindings_head
    rebindings rebindings_nel
  let retval := r.1
  let s1 : State := { s with _rebindings_head := r.2 }
  if retval < 0 then (retval, s1)
  else if s1._rebindings_head.tail = [] then
    (retval, _dyld_register_func_for_add_image ro s1)
  else
    (retval, (List.range s1.images.length).foldl
      (fun st i =>
        match s1.images.get? i with
        | some img => _rebind_symbols_for_image ro img.header img.slide st
        | none => st) s1)

/-! ## Search order and per-slot decision -/

/-- The entries of the registry in search order: nodes from the head (newest
first), and within a node the first `rebindings_nel` entries in array order. -/
def search_order (rebindings : List rebindings_entry) : List rebinding :=
  rebindings.flatMap (fun cur => cur.rebindings.take cur.rebindings_nel)

/-- The first entry in search order whose name equals the string at `name1`. -/
def first_match (ro : ROMem) (name1 : Nat) (rebindings : List rebindings_entry) :
    Option rebinding :=
  (search_order rebindings).find? (fun r => decide (strcmp_at ro.byte name1 r.name = 0))

/-- The address of slot `i` of a section. -/
def slot_addr (sect : section_t) (slide : Int) (i : Nat) : Nat :=
  uadd (to_uintptr slide) sect.addr + sizeof_ptr * i

/-- The indirect symbol table entry of slot `i` of a section. -/
def slot_symtab_index (ro : ROMem) (sect : section_t) (indirect_symtab i : Nat) : Nat :=
  ro.u32 (indirect_symtab + sizeof_uint32 * sect.reserved1 + sizeof_uint32 * i)

/-- The address of the resolved symbol name of slot `i` of a section. -/
def slot_symbol_name (ro : ROMem) (sect : section_t) (symtab strtab indirect_symtab i : Nat) :
    Nat :=
  strtab + ro.u32 (symtab + sizeof_nlist * slot_symtab_index ro sect indirect_symtab i)

/-- Slot `i` passes the two skip tests of the loop body: its indirect symbol
table entry is not a sentinel and its name has at least two characters. -/
def slot_examined (ro : ROMem) (sect : section_t) (symtab strtab indirect_symtab i : Nat) :
    Prop :=
  ¬ (slot_symtab_index ro sect indirect_symtab i = INDIRECT_SYMBOL_ABS ∨
      slot_symtab_index ro sect indirect_symtab i = INDIRECT_SYMBOL_LOCAL ∨
      slot_symtab_index ro sect indirect_symtab i =
        (INDIRECT_SYMBOL_LOCAL ||| INDIRECT_SYMBOL_ABS)) ∧
    ¬ (strnlen2 ro.byte (slot_symbol_name ro sect symtab strtab indirect_symtab i) < 2)

instance (ro : ROMem) (sect : section_t) (symtab strtab indirect_symtab i : Nat) :
    Decidable (slot_examined ro sect symtab strtab indirect_symtab i) := by
  unfold slot_examined; infer_instance

/-- The entry that decides slot `i`: none when the slot is skipped or no entry
matches, else the first match in search order. -/
def slot_match (ro : ROMem) (rebindings : List rebindings_entry) (sect : section_t)
    (symtab strtab indirect_symtab i : Nat) : Option rebinding :=
  if slot_examined ro sect symtab strtab indirect_symtab i then
    first_match ro (slot_symbol_name ro sect symtab strtab indirect_symtab i + 1) rebindings
  else none

/-- No capture output of the registry is the address `a`. -/
def no_capture_at (rebindings : List rebindings_entry) (a : Nat) : Prop :=
  ∀ r ∈ search_order rebindings, r.replaced = 0 ∨ r.replaced ≠ a

instance (rebindings : List rebindings_entry) (a : Nat) :
    Decidable (no_capture_at rebindings a) := by
  unfold no_capture_at; infer_instance

/-! ## Patches: the stores a scan makes, as a list -/

/-- Run a list of patches (slot address, deciding entry) in order. -/
def run_patches (ps : List (Nat × rebinding)) (w : World) : World :=
  ps.foldl (fun w p => apply_rebinding p.2 p.1 w) w

/-- The patches of one section in slot order: one for every slot that is
examined and has a match. -/
def section_patches (ro : ROMem) (rebindings : List rebindings_entry) (sect : section_t)
    (slide : Int) (symtab strtab indirect_symtab : Nat) : List (Nat × rebinding) :=
  (List.range (sect.size / sizeof_ptr)).filterMap (fun i =>
    (slot_match ro rebindings sect symtab strtab indirect_symtab i).map
      (fun r => (slot_addr sect slide i, r)))

/-- The section holds lazy or non-lazy symbol pointers. -/
def pointer_section (sect : section_t) : Prop :=
  sect.flags &&& SECTION_TYPE = S_LAZY_SYMBOL_POINTERS ∨
    sect.flags &&& SECTION_TYPE = S_NON_LAZY_SYMBOL_POINTERS

instance (sect : section_t) : Decidable (pointer_section sect) := by
  unfold pointer_section; infer_instance

/-- The load command is a segment command named `__DATA` or `__DATA_CONST`. -/
def data_segment (c : load_command) : Prop :=
  c.cmd = LC_SEGMENT_ARCH_DEPENDENT ∧
    (strcmp c.segname SEG_DATA = 0 ∨ strcmp c.segname SEG_DATA_CONST = 0)

instance (c : load_command) : Decidable (data_segment c) := by
  unfold data_segment; infer_instance

/-- The sections of an image that a scan patches, in scan order. -/
def scanned_sections (header : mach_header) : List section_t :=
  (header.cmds.filter (fun c => decide (data_segment c))).flatMap
    (fun c => c.sects.filter (fun sect => decide (pointer_section sect)))

/-- The table addresses (symtab, strtab, indirect_symtab) the scan of an image
computes, or none when the image is skipped. -/
def image_tables (header : mach_header) (slide : Int) : Option (Nat × Nat × Nat) :=
  if header.dladdr = 0 then none
  else
    let found := header.cmds.foldl locate_step
      { linkedit_segment := none, symtab_cmd := none, dysymtab_cmd := none }
    match found.symtab_cmd, found.dysymtab_cmd, found.linkedit_segment with
    | some symtab_cmd, some dysymtab_cmd, some linkedit_segment =>
      if dysymtab_cmd.nindirectsyms = 0 then none
      else
        let linkedit_base :=
          usub (uadd (to_uintptr slide) linkedit_segment.vmaddr) linkedit_segment.fileoff
        some (uadd linkedit_base symtab_cmd.symoff, uadd linkedit_base symtab_cmd.stroff,
          uadd linkedit_base dysymtab_cmd.indirectsymoff)
    | _, _, _ => none

/-- The patches of one image in scan order. -/
def image_patches (ro : ROMem) (rebindings : List rebindings_entry) (header : mach_header)
    (slide : Int) : List (Nat × rebinding) :=
  match image_tables header slide with
  | some (symtab, strtab, indirect_symtab) =>
    (scanned_sections header).flatMap (fun sect =>
      section_patches ro rebindings sect slide symtab strtab indirect_symtab)
  | none => []

/-- The patches of a scan of all the images of the loader, in scan order. -/
def all_patches (ro : ROMem) (rebindings : List rebindings_entry) (images : List loaded_image) :
    List (Nat × rebinding) :=
  images.flatMap (fun img => image_patches ro rebindings img.header img.slide)

/-- The slots of the patches are pairwise distinct addresses and no capture
output of a patch is the slot of a patch. -/
def separated (ps : List (Nat × rebinding)) : Prop :=
  ps.Pairwise (fun p q => p.1 ≠ q.1) ∧
    ∀ p ∈ ps, ∀ q ∈ ps, q.2.replaced = 0 ∨ q.2.replaced ≠ p.1

/-- The capture stores a run of the patches makes from memory `mem`, newest
first, when the patches are separated: one for every patch that requests a
capture and whose slot does not hold the replacement yet. -/
def new_captures (ps : List (Nat × rebinding)) (mem : Nat → Nat) : List Capture :=
  ((ps.filter (fun p => decide (p.2.replaced ≠ 0 ∧ mem p.1 ≠ p.2.replacement))).map
    (fun p => ({ slot := p.1, out := p.2.replaced, value := mem p.1 } : Capture))).reverse

/-- No capture output of the registry is the address of a slot of the section. -/
def section_no_alias (rebindings : List rebindings_entry) (sect : section_t) (slide : Int) :
    Prop :=
  ∀ i < sect.size / sizeof_ptr, no_capture_at rebindings (slot_addr sect slide i)

instance (rebindings : List rebindings_entry) (sect : section_t) (slide : Int) :
    Decidable (section_no_alias rebindings sect slide) := by
  unfold section_no_alias; infer_instance

/-! ## Sequences of calls to the entry points -/

/-- A call to one of the two entry points, with the outcome of its two
allocations. -/
inductive Call where
  | rebind_symbols (malloc_entry malloc_rebindings : Bool) (rebindings : List rebinding)
      (rebindings_nel : Nat)
  | rebind_symbols_image (malloc_entry malloc_rebindings : Bool) (header : mach_header)
      (slide : Int) (rebindings : List rebinding) (rebindings_nel : Nat)

/-- The status and the state after one call. -/
def do_call (ro : ROMem) (c : Call) (s : State) : Int × State :=
  match c with
  | .rebind_symbols me mr rebindings nel => rebind_symbols ro me mr rebindings nel s
  | .rebind_symbols_image me mr header slide rebindings nel =>
    rebind_symbols_image ro me mr header slide rebindings nel s

/-- The state after a sequence of calls. -/
def run_calls (ro : ROMem) (cs : List Call) (s : State) : State :=
  cs.foldl (fun st c => (do_call ro c st).2) s

/-- The call is a `rebind_symbols` call both of whose allocations succeed. -/
def successful_registration : Call → Bool
  | .rebind_symbols me mr _ _ => me && mr
  | .rebind_symbols_image _ _ _ _ _ _ => false

/-- The state after a successful `rebind_symbols` call that submits the
one-element array holding `e`. -/
def register_one (ro : ROMem) (s : State) (e : rebinding) : State :=
  (rebind_symbols ro true true [e] 1 s).2

/-! ## A small image used for concrete evaluations -/

namespace Example

/-- Link-edit data: the indirect symbol table at 2000 holds the symbol indices
0, 1 and `INDIRECT_SYMBOL_ABS`; the symbol table at 3000 gives symbol 0 the name
offset 1, symbol 1 the name offset 4 and symbol 2 the name offset 7; the string
table at 4000 holds the strings `_m` (offset 1), `_f` (offset 4) and `_`
(offset 7). -/
def ro : ROMem :=
  { u32 := fun a =>
      if a = 2000 then 0 else if a = 2004 then 1 else if a = 2008 then INDIRECT_SYMBOL_ABS
      else if a = 2012 then 2
      else if a = 3000 then 1 else if a = 3016 then 4 else if a = 3032 then 7 else 0,
    byte := fun a => if a < 4000 then 0 else [0, 95, 109, 0, 95, 102, 0, 95, 0].getD (a - 4000) 0 }

/-- A non-lazy pointer section of two slots, at addresses 1000 and 1008. -/
def sect : section_t := { addr := 1000, size := 16, flags := 6, reserved1 := 0 }

/-- A non-lazy pointer section of four slots, at addresses 1000 to 1024: the
third has a sentinel index and the fourth the one-character name `_`. -/
def sect4 : section_t := { addr := 1000, size := 32, flags := 6, reserved1 := 0 }

/-- Initial memory: slot `_m` holds 7000, slot `_f` holds 7008. -/
def mem0 : Nat → Nat :=
  fun a => if a = 1000 then 7000 else if a = 1008 then 7008 else if a = 1016 then 7016
    else if a = 1024 then 7024 else 0

/-- Initial memory with an empty capture record. -/
def w0 : World := { mem := mem0, captured := [] }

/-- The name `m`. -/
def name_m : List Nat := [109]

/-- The name `f`. -/
def name_f : List Nat := [102]

/-- A load command with only a command number. -/
def blank (cmd : Nat) : load_command :=
  { cmd := cmd, segname := [], vmaddr := 0, fileoff := 0, sects := [], symoff := 0, stroff := 0,
    indirectsymoff := 0, nindirectsyms := 0 }

/-- The header of image M: `__LINKEDIT`, the symbol table command, the dynamic
symbol table command and a `__DATA` segment with the section `sect`. -/
def header : mach_header :=
  { dladdr := 1,
    cmds := [
      { blank LC_SEGMENT_64 with segname := SEG_LINKEDIT },
      { blank LC_SYMTAB with symoff := 3000, stroff := 4000 },
      { blank LC_DYSYMTAB with indirectsymoff := 2000, nindirectsyms := 4 },
      { blank LC_SEGMENT_64 with segname := SEG_DATA, sects := [sect] } ] }

/-- The process before any registration: empty registry, image M loaded. -/
def s0 : State :=
  { _rebindings_head := [], world := w0, add_image_calls := 0,
    images := [{ header := header, slide := 0 }] }

/-- After registering `m` with replacement 9001 and capture output 500. -/
def s1 : State :=
  (rebind_symbols ro true true [{ name := name_m, replacement := 9001, replaced := 500 }] 1 s0).2

/-- After then registering `m` with replacement 9002 and capture output 600. -/
def s2 : State :=
  (rebind_symbols ro true true [{ name := name_m, replacement := 9002, replaced := 600 }] 1 s1).2

/-- The registry with the single set `m -> 9001`, capturing into address 500. -/
def regs1 : List rebindings_entry :=
  [{ rebindings := [{ name := name_m, replacement := 9001, replaced := 500 }],
     rebindings_nel := 1 }]

/-- The older set `m -> 9001`. -/
def set_old : List rebinding := [{ name := name_m, replacement := 9001, replaced := 0 }]

/-- The newer set `m -> 9002`. -/
def set_new : List rebinding := [{ name := name_m, replacement := 9002, replaced := 0 }]

/-- The newer set `m -> 9002` followed by `f -> 9100` whose capture output is
the address of the slot of `_m`. -/
def set_new_alias : List rebinding :=
  [{ name := name_m, replacement := 9002, replaced := 0 },
   { name := name_f, replacement := 9100, replaced := 1000 }]

/-- The older set naming the empty string. -/
def set_old_empty : List rebinding := [{ name := [], replacement := 9001, replaced := 0 }]

/-- The newer set naming the empty string. -/
def set_new_empty : List rebinding := [{ name := [], replacement := 9002, replaced := 0 }]

/-- The set `f -> 9100` whose capture output is the address of the slot of
`_m`. -/
def set_f_alias : List rebinding := [{ name := name_f, replacement := 9100, replaced := 1000 }]

/-- The process after registering the set `m -> 9001` without capture. -/
def s_old : State := (rebind_symbols ro true true set_old 1 s0).2

/-- A regular data section (no symbol pointers) over the same addresses. -/
def sect_plain : section_t := { addr := 1000, size := 16, flags := 0, reserved1 := 0 }

/-- The header of an image whose `__DATA` segment has only the regular section. -/
def header_plain : mach_header :=
  { dladdr := 1,
    cmds := [
      { blank LC_SEGMENT_64 with segname := SEG_LINKEDIT },
      { blank LC_SYMTAB with symoff := 3000, stroff := 4000 },
      { blank LC_DYSYMTAB with indirectsymoff := 2000, nindirectsyms := 4 },
      { blank LC_SEGMENT_64 with segname := SEG_DATA, sects := [sect_plain] } ] }

/-- A process whose only image has no pointer section, with the registry
`m -> 9001` already registered. -/
def s_plain : State :=
  { _rebindings_head := regs1, world := w0, add_image_calls := 1,
    images := [{ header := header_plain, slide := 0 }] }

/-- The header of an image like M whose dynamic symbol table declares no
indirect symbols. -/
def header_no_indirect : mach_header :=
  { dladdr := 1,
    cmds := [
      { blank LC_SEGMENT_64 with segname := SEG_LINKEDIT },
      { blank LC_SYMTAB with symoff := 3000, stroff := 4000 },
      { blank LC_DYSYMTAB with indirectsymoff := 2000, nindirectsyms := 0 },
      { blank LC_SEGMENT_64 with segname := SEG_DATA, sects := [sect] } ] }

/-- The header of an image like M whose `__LINKEDIT` segment has virtual
address 5000 and file offset 1000 and whose pointer section has address 5000:
loaded with slide -4000 its tables and slots are where those of M are. -/
def header_neg : mach_header :=
  { dladdr := 1,
    cmds := [
      { blank LC_SEGMENT_64 with segname := SEG_LINKEDIT, vmaddr := 5000, fileoff := 1000 },
      { blank LC_SYMTAB with symoff := 3000, stroff := 4000 },
      { blank LC_DYSYMTAB with indirectsymoff := 2000, nindirectsyms := 4 },
      { blank LC_SEGMENT_64 with segname := SEG_DATA,
                                 sects := [{ addr := 5000, size := 16, flags := 6,
                                             reserved1 := 0 }] } ] }

/-- The registry with the single set `f -> 9100`, capturing into `out`. -/
def regs_f (out : Nat) : List rebindings_entry :=
  [{ rebindings := [{ name := name_f, replacement := 9100, replaced := out }],
     rebindings_nel := 1 }]

/-- The registry with the single set `m -> 9001`, capturing into `out`. -/
def regs_m (out : Nat) : List rebindings_entry :=
  [{ rebindings := [{ name := name_m, replacement := 9001, replaced := out }],
     rebindings_nel := 1 }]

/-- The registry with the single set `m -> 9001, f -> 9100`, both entries
capturing into address 500. -/
def regs_shared : List rebindings_entry :=
  [{ rebindings := [{ name := name_m, replacement := 9001, replaced := 500 },
                    { name := name_f, replacement := 9100, replaced := 500 }],
     rebindings_nel := 2 }]

/-- Link-edit data of a second image: the indirect symbol table at 2000 holds
the symbol indices 0, 0 and 1; the symbol table at 3000 gives symbol 0 the name
offset 1 and symbol 1 the name offset 4; the string table at 4000 holds the
strings `_m` (offset 1) and `_f` (offset 4).  Its pointer section has two slots
named `_m` followed by one slot named `_f`. -/
def ro3 : ROMem :=
  { u32 := fun a =>
      if a = 2000 then 0 else if a = 2004 then 0 else if a = 2008 then 1
      else if a = 3000 then 1 else if a = 3016 then 4 else 0,
    byte := fun a => if a < 4000 then 0 else [0, 95, 109, 0, 95, 102, 0].getD (a - 4000) 0 }

/-- A non-lazy pointer section of three slots, at addresses 1000, 1008, 1016. -/
def sect3 : section_t := { addr := 1000, size := 24, flags := 6, reserved1 := 0 }

/-- The header of the second image, with the three-slot section in `__DATA`. -/
def header3 : mach_header :=
  { dladdr := 1,
    cmds := [
      { blank LC_SEGMENT_64 with segname := SEG_LINKEDIT },
      { blank LC_SYMTAB with symoff := 3000, stroff := 4000 },
      { blank LC_DYSYMTAB with indirectsymoff := 2000, nindirectsyms := 3 },
      { blank LC_SEGMENT_64 with segname := SEG_DATA, sects := [sect3] } ] }

/-- Memory in which the two slots of `_m` hold 7000 and 7008 and the slot of
`_f` already holds 9100; location 500 holds 42. -/
def w3 : World :=
  { mem := fun a => if a = 1000 then 7000 else if a = 1008 then 7008
      else if a = 1016 then 9100 else if a = 500 then 42 else 0,
    captured := [] }

/-- Memory in which the two slots of `_m` already hold 9001 and the slot of
`_f` already holds 9100; location 500 holds 42. -/
def w3_done : World :=
  { mem := fun a => if a = 1000 then 9001 else if a = 1008 then 9001
      else if a = 1016 then 9100 else if a = 500 then 42 else 0,
    captured := [] }

end Example

/-- The address `a` is a slot of a section that a scan of the images patches. -/
def scanned_slot (images : List loaded_image) (a : Nat) : Prop :=
  ∃ img ∈ images, ∃ sect ∈ scanned_sections img.header,
    ∃ i, i < sect.size / sizeof_ptr ∧ a = slot_addr sect img.slide i

instance (images : List loaded_image) (a : Nat) : Decidable (scanned_slot images a) := by
  unfold scanned_slot; infer_instance

/-! ## Prerequisites of a scan and the calls it makes -/

/-- The load command is a segment command named `__LINKEDIT`. -/
def is_linkedit (c : load_command) : Bool :=
  decide (c.cmd = LC_SEGMENT_ARCH_DEPENDENT ∧ strcmp c.segname SEG_LINKEDIT = 0)

/-- The load command is a symbol table command. -/
def is_symtab (c : load_command) : Bool := decide (c.cmd = LC_SYMTAB)

/-- The load command is a dynamic symbol table command. -/
def is_dysymtab (c : load_command) : Bool := decide (c.cmd = LC_DYSYMTAB)

/-- The last load command of the list that satisfies `p`. -/
def last_cmd (p : load_command → Bool) (cmds : List load_command) : Option load_command :=
  (cmds.filter p).getLast?

/-- No section of a `__DATA` or `__DATA_CONST` segment of the image holds lazy
or non-lazy symbol pointers. -/
def no_pointer_sections (header : mach_header) : Prop :=
  ∀ c ∈ header.cmds, data_segment c → ∀ sect ∈ c.sects, ¬ pointer_section sect

instance (header : mach_header) : Decidable (no_pointer_sections header) := by
  unfold no_pointer_sections; infer_instance

/-- The bytes of a C string: the list up to its first NUL. -/
def cstr (l : List Nat) : List Nat := l.takeWhile (fun c => decide (c ≠ 0))

/-- Source lines 249-254: the sections `perform_rebinding_with_section` is
called on for one section of a data segment, one list element per call. -/
def section_invocations (sect : section_t) : List section_t :=
  (if sect.flags &&& SECTION_TYPE = S_LAZY_SYMBOL_POINTERS then [sect] else []) ++
    (if sect.flags &&& SECTION_TYPE = S_NON_LAZY_SYMBOL_POINTERS then [sect] else [])

/-- Source lines 240-256: the calls made for one load command. -/
def segment_invocations (cur_seg_cmd : load_command) : List section_t :=
  if cur_seg_cmd.cmd = LC_SEGMENT_ARCH_DEPENDENT then
    if strcmp cur_seg_cmd.segname SEG_DATA ≠ 0 ∧ strcmp cur_seg_cmd.segname SEG_DATA_CONST ≠ 0
    then []
    else cur_seg_cmd.sects.flatMap section_invocations
  else []

/-- Source lines 238-257: the calls the second loop over the load commands
makes, in order. -/
def loop_invocations (cmds : List load_command) : List section_t :=
  cmds.flatMap segment_invocations

/-- The mathematical value `slide + vmaddr - fileoff + off`, reduced modulo
`2^64`: what the spec gives as the address of a link-edit table. -/
def spec_table_address (slide : Int) (vmaddr fileoff off : Nat) : Nat :=
  ((slide + (vmaddr : Int) - (fileoff : Int) + (off : Int)) % ((2 : Int) ^ 64)).toNat

instance (ps : List (Nat × rebinding)) : Decidable (separated ps) := by
  unfold separated; infer_instance

/-! ## Basic facts about stores -/

theorem store_same (mem : Nat → Nat) (a v : Nat) : store mem a v a = v := by
  simp [store]

theorem store_other (mem : Nat → Nat) (a v x : Nat) (h : x ≠ a) : store mem a v x = mem x := by
  simp [store, h]

theorem apply_rebinding_mem_slot (r : rebinding) (slot : Nat) (w : World) :
    (apply_rebinding r slot w).mem slot = r.replacement := by
  simp [apply_rebinding, store]

theorem apply_rebinding_mem_other (r : rebinding) (slot a : Nat) (w : World)
    (hs : a ≠ slot) (hc : r.replaced = 0 ∨ r.replaced ≠ a) :
    (apply_rebinding r slot w).mem a = w.mem a := by
  unfold apply_rebinding
  simp only [store, if_neg hs]
  split
  · rename_i h
    rcases hc with hc | hc
    · exact absurd hc h.1
    · simp [store, Ne.symm hc]
  · rfl

theorem apply_rebinding_captured (r : rebinding) (slot : Nat) (w : World) :
    (apply_rebinding r slot w).captured =
      if r.replaced ≠ 0 ∧ w.mem slot ≠ r.replacement then
        { slot := slot, out := r.replaced, value := w.mem slot } :: w.captured
      else w.captured := by
  unfold apply_rebinding
  split <;> rfl

theorem apply_rebinding_fixed (r : rebinding) (slot : Nat) (w : World)
    (h : w.mem slot = r.replacement) : apply_rebinding r slot w = w := by
  unfold apply_rebinding
  have hn : ¬ (r.replaced ≠ 0 ∧ w.mem slot ≠ r.replacement) := fun hh => hh.2 h
  rw [if_neg hn]
  cases w with
  | mk mem captured =>
    simp only [World.mk.injEq, and_true]
    funext x
    by_cases hx : x = slot
    · subst hx; simpa [store] using h.symm
    · simp [store, hx]

/-! ## The nested search is a first-match search -/

theorem search_entry_eq (ro : ROMem) (name1 slot : Nat) (rs : List rebinding) (w : World) :
    search_entry ro name1 slot rs w =
      (rs.find? (fun r => decide (strcmp_at ro.byte name1 r.name = 0))).map
        (fun r => apply_rebinding r slot w) := by
  induction rs with
  | nil => rfl
  | cons r rs ih =>
    by_cases h : strcmp_at ro.byte name1 r.name = 0
    · simp [search_entry, h]
    · simp [search_entry, h, ih]

theorem search_list_eq (ro : ROMem) (name1 slot : Nat) (rebindings : List rebindings_entry)
    (w : World) :
    search_list ro name1 slot rebindings w =
      match first_match ro name1 rebindings with
      | some r => apply_rebinding r slot w
      | none => w := by
  induction rebindings with
  | nil => rfl
  | cons cur next ih =>
    simp only [search_list, search_entry_eq, first_match, search_order, List.flatMap_cons,
      List.find?_append]
    cases hf : (cur.rebindings.take cur.rebindings_nel).find?
        (fun r => decide (strcmp_at ro.byte name1 r.name = 0)) with
    | some r => simp
    | none =>
      simp only [Option.map_none', Option.none_or]
      rw [ih]; rfl

theorem slot_body_eq (ro : ROMem) (rebindings : List rebindings_entry) (sect : section_t)
    (slide : Int) (symtab strtab indirect_symtab : Nat) (w : World) (i : Nat) :
    slot_body ro rebindings (indirect_symtab + sizeof_uint32 * sect.reserved1)
        (uadd (to_uintptr slide) sect.addr) symtab strtab w i =
      match slot_match ro rebindings sect symtab strtab indirect_symtab i with
      | some r => apply_rebinding r (slot_addr sect slide i) w
      | none => w := by
  unfold slot_body slot_match slot_examined
  simp only [slot_symtab_index, slot_symbol_name, slot_addr]
  by_cases h1 : ro.u32 (indirect_symtab + sizeof_uint32 * sect.reserved1 + sizeof_uint32 * i)
      = INDIRECT_SYMBOL_ABS ∨
      ro.u32 (indirect_symtab + sizeof_uint32 * sect.reserved1 + sizeof_uint32 * i)
        = INDIRECT_SYMBOL_LOCAL ∨
      ro.u32 (indirect_symtab + sizeof_uint32 * sect.reserved1 + sizeof_uint32 * i)
        = (INDIRECT_SYMBOL_LOCAL ||| INDIRECT_SYMBOL_ABS)
  · simp [h1]
  · by_cases h2 : strnlen2 ro.byte (strtab + ro.u32 (symtab + sizeof_nlist *
        ro.u32 (indirect_symtab + sizeof_uint32 * sect.reserved1 + sizeof_uint32 * i))) < 2
    · simp [h1, h2]
    · simp only [h1, h2, if_false, not_false_eq_true, and_self, if_true]
      rw [search_list_eq]

/-! ## A scan is a run of patches -/

theorem run_patches_nil (w : World) : run_patches [] w = w := rfl

theorem run_patches_cons (p : Nat × rebinding) (ps : List (Nat × rebinding)) (w : World) :
    run_patches (p :: ps) w = run_patches ps (apply_rebinding p.2 p.1 w) := rfl

theorem run_patches_append (ps qs : List (Nat × rebinding)) (w : World) :
    run_patches (ps ++ qs) w = run_patches qs (run_patches ps w) := by
  simp [run_patches]

theorem run_patches_flatMap {α : Type} (f : α → List (Nat × rebinding)) (g : World → α → World)
    (hg : ∀ w x, g w x = run_patches (f x) w) (l : List α) (w : World) :
    l.foldl g w = run_patches (l.flatMap f) w := by
  induction l generalizing w with
  | nil => rfl
  | cons x l ih => simp [List.foldl_cons, hg, ih, run_patches_append]

theorem foldl_filterMap_patches {α : Type} (f : α → Option (Nat × rebinding))
    (g : World → α → World)
    (hg : ∀ w x, g w x = match f x with
      | some p => apply_rebinding p.2 p.1 w
      | none => w) (l : List α) (w : World) :
    l.foldl g w = run_patches (l.filterMap f) w := by
  induction l generalizing w with
  | nil => rfl
  | cons x l ih =>
    rw [List.foldl_cons, ih, hg]
    cases hf : f x with
    | none => simp [List.filterMap_cons, hf]
    | some p => simp [List.filterMap_cons, hf, run_patches_cons]

theorem perform_rebinding_with_section_eq (ro : ROMem) (rebindings : List rebindings_entry)
    (sect : section_t) (slide : Int) (symtab strtab indirect_symtab : Nat) (w : World) :
    perform_rebinding_with_section ro rebindings sect slide symtab strtab indirect_symtab w =
      run_patches (section_patches ro rebindings sect slide symtab strtab indirect_symtab) w := by
  unfold perform_rebinding_with_section section_patches
  apply foldl_filterMap_patches
  intro w i
  rw [slot_body_eq]
  cases slot_match ro rebindings sect symtab strtab indirect_symtab i <;> rfl

theorem flatMap_filter_eq {α β : Type} (p : α → Bool) (f : α → List β) (l : List α) :
    (l.filter p).flatMap f = l.flatMap (fun x => if p x then f x else []) := by
  induction l with
  | nil => rfl
  | cons x l ih =>
    by_cases hp : p x
    · simp [List.filter_cons, hp, ih]
    · simp [List.filter_cons, hp, ih]

theorem section_step_eq (ro : ROMem) (rebindings : List rebindings_entry) (slide : Int)
    (symtab strtab indirect_symtab : Nat) (w : World) (sect : section_t) :
    section_step ro rebindings slide symtab strtab indirect_symtab w sect =
      run_patches (if decide (pointer_section sect) then
        section_patches ro rebindings sect slide symtab strtab indirect_symtab else []) w := by
  unfold section_step pointer_section
  have hne : S_LAZY_SYMBOL_POINTERS ≠ S_NON_LAZY_SYMBOL_POINTERS := by decide
  by_cases h1 : sect.flags &&& SECTION_TYPE = S_LAZY_SYMBOL_POINTERS
  · simp [h1, hne, perform_rebinding_with_section_eq]
  · by_cases h2 : sect.flags &&& SECTION_TYPE = S_NON_LAZY_SYMBOL_POINTERS
    · simp [h2, hne.symm, perform_rebinding_with_section_eq]
    · simp [h1, h2, run_patches_nil]

theorem segment_step_eq (ro : ROMem) (rebindings : List rebindings_entry) (slide : Int)
    (symtab strtab indirect_symtab : Nat) (w : World) (c : load_command) :
    segment_step ro rebindings slide symtab strtab indirect_symtab w c =
      run_patches (if decide (data_segment c) then
        (c.sects.filter (fun sect => decide (pointer_section sect))).flatMap (fun sect =>
          section_patches ro rebindings sect slide symtab strtab indirect_symtab) else []) w := by
  unfold segment_step data_segment
  by_cases h1 : c.cmd = LC_SEGMENT_ARCH_DEPENDENT
  · by_cases h2 : strcmp c.segname SEG_DATA ≠ 0 ∧ strcmp c.segname SEG_DATA_CONST ≠ 0
    · have h3 : ¬ (strcmp c.segname SEG_DATA = 0 ∨ strcmp c.segname SEG_DATA_CONST = 0) := by
        rintro (h | h)
        · exact h2.1 h
        · exact h2.2 h
      simp [h1, h2, h3, run_patches_nil]
    · have h3 : strcmp c.segname SEG_DATA = 0 ∨ strcmp c.segname SEG_DATA_CONST = 0 := by
        by_contra hc
        exact h2 ⟨fun h => hc (Or.inl h), fun h => hc (Or.inr h)⟩
      rw [if_pos h1, if_neg h2]
      simp only [h1, h3, and_self, decide_True, if_true]
      rw [flatMap_filter_eq]
      exact run_patches_flatMap _ _ (fun w x => section_step_eq ro rebindings slide symtab strtab
        indirect_symtab w x) c.sects w
  · simp [h1, run_patches_nil]

theorem segments_fold_eq (ro : ROMem) (rebindings : List rebindings_entry) (slide : Int)
    (symtab strtab indirect_symtab : Nat) (cmds : List load_command) (w : World) :
    cmds.foldl (segment_step ro rebindings slide symtab strtab indirect_symtab) w =
      run_patches (((cmds.filter (fun c => decide (data_segment c))).flatMap
        (fun c => c.sects.filter (fun sect => decide (pointer_section sect)))).flatMap
        (fun sect => section_patches ro rebindings sect slide symtab strtab indirect_symtab)) w := by
  rw [List.flatMap_assoc, flatMap_filter_eq]
  exact run_patches_flatMap _ _ (fun w x => segment_step_eq ro rebindings slide symtab strtab
    indirect_symtab w x) cmds w

theorem rebind_symbols_for_image_eq (ro : ROMem) (rebindings : List rebindings_entry)
    (header : mach_header) (slide : Int) (w : World) :
    rebind_symbols_for_image ro rebindings header slide w =
      run_patches (image_patches ro rebindings header slide) w := by
  unfold rebind_symbols_for_image image_patches image_tables scanned_sections
  by_cases h0 : header.dladdr = 0
  · simp [h0, run_patches_nil]
  · simp only [h0, if_false]
    generalize header.cmds.foldl locate_step
      { linkedit_segment := none, symtab_cmd := none, dysymtab_cmd := none } = found
    obtain ⟨l, s, d⟩ := found
    cases s <;> cases d <;> cases l <;> simp only [run_patches_nil]
    split
    · simp [run_patches_nil]
    · simp only [segments_fold_eq]

/-! ## What a run of patches does to memory -/

theorem run_patches_mem_other (ps : List (Nat × rebinding)) (w : World) (a : Nat)
    (h : ∀ p ∈ ps, a ≠ p.1 ∧ (p.2.replaced = 0 ∨ p.2.replaced ≠ a)) :
    (run_patches ps w).mem a = w.mem a := by
  induction ps generalizing w with
  | nil => rfl
  | cons q qs ih =>
    rw [run_patches_cons, ih _ (fun p hp => h p (List.mem_cons_of_mem _ hp))]
    exact apply_rebinding_mem_other _ _ _ _ (h q (List.mem_cons_self _ _)).1
      (h q (List.mem_cons_self _ _)).2

theorem separated_tail (q : Nat × rebinding) (qs : List (Nat × rebinding))
    (h : separated (q :: qs)) : separated qs :=
  ⟨(List.pairwise_cons.mp h.1).2,
    fun p hp r hr => h.2 p (List.mem_cons_of_mem _ hp) r (List.mem_cons_of_mem _ hr)⟩

theorem run_patches_mem_slot (ps : List (Nat × rebinding)) (w : World) (hs : separated ps)
    (p : Nat × rebinding) (hp : p ∈ ps) : (run_patches ps w).mem p.1 = p.2.replacement := by
  induction ps generalizing w with
  | nil => cases hp
  | cons q qs ih =>
    rw [run_patches_cons]
    rcases List.mem_cons.mp hp with rfl | hp1
    · rw [run_patches_mem_other, apply_rebinding_mem_slot]
      intro r hr
      exact ⟨(List.pairwise_cons.mp hs.1).1 r hr,
        hs.2 p (List.mem_cons_self _ _) r (List.mem_cons_of_mem _ hr)⟩
    · exact ih _ (separated_tail q qs hs) hp1

theorem run_patches_fixed (ps : List (Nat × rebinding)) (w : World)
    (h : ∀ p ∈ ps, w.mem p.1 = p.2.replacement) : run_patches ps w = w := by
  induction ps with
  | nil => rfl
  | cons q qs ih =>
    rw [run_patches_cons, apply_rebinding_fixed _ _ _ (h q (List.mem_cons_self _ _))]
    exact ih (fun p hp => h p (List.mem_cons_of_mem _ hp))

theorem run_patches_idempotent (ps : List (Nat × rebinding)) (w : World) (hs : separated ps) :
    run_patches ps (run_patches ps w) = run_patches ps w :=
  run_patches_fixed ps _ (fun p hp => run_patches_mem_slot ps w hs p hp)

theorem new_captures_congr (ps : List (Nat × rebinding)) (m1 m2 : Nat → Nat)
    (h : ∀ p ∈ ps, m1 p.1 = m2 p.1) : new_captures ps m1 = new_captures ps m2 := by
  induction ps with
  | nil => rfl
  | cons q qs ih =>
    have hq := h q (List.mem_cons_self _ _)
    have ih1 := ih (fun p hp => h p (List.mem_cons_of_mem _ hp))
    unfold new_captures at ih1 ⊢
    simp only [List.filter_cons, hq]
    split
    · simp only [List.map_cons, List.reverse_cons, hq, ih1]
    · exact ih1

theorem new_captures_cons (q : Nat × rebinding) (qs : List (Nat × rebinding)) (mem : Nat → Nat) :
    new_captures (q :: qs) mem =
      new_captures qs mem ++
        (if q.2.replaced ≠ 0 ∧ mem q.1 ≠ q.2.replacement then
          [({ slot := q.1, out := q.2.replaced, value := mem q.1 } : Capture)] else []) := by
  unfold new_captures
  by_cases h : q.2.replaced ≠ 0 ∧ mem q.1 ≠ q.2.replacement
  · simp [List.filter_cons, h]
  · simp [List.filter_cons, h]

theorem run_patches_captured (ps : List (Nat × rebinding)) (w : World) (hs : separated ps) :
    (run_patches ps w).captured = new_captures ps w.mem ++ w.captured := by
  induction ps generalizing w with
  | nil => rfl
  | cons q qs ih =>
    rw [run_patches_cons, ih _ (separated_tail q qs hs), new_captures_cons,
      apply_rebinding_captured]
    have hc : new_captures qs (apply_rebinding q.2 q.1 w).mem = new_captures qs w.mem := by
      apply new_captures_congr
      intro p hp
      exact apply_rebinding_mem_other _ _ _ _ (Ne.symm ((List.pairwise_cons.mp hs.1).1 p hp))
        (hs.2 p (List.mem_cons_of_mem _ hp) q (List.mem_cons_self _ _))
    rw [hc]
    split <;> simp

/-! ## The patches of a section -/

theorem slot_addr_inj (sect : section_t) (slide : Int) (i j : Nat)
    (h : slot_addr sect slide i = slot_addr sect slide j) : i = j := by
  unfold slot_addr sizeof_ptr at h
  omega

theorem first_match_some (ro : ROMem) (name1 : Nat) (rebindings : List rebindings_entry)
    (r : rebinding) (h : first_match ro name1 rebindings = some r) :
    r ∈ search_order rebindings ∧ strcmp_at ro.byte name1 r.name = 0 := by
  unfold first_match at h
  exact ⟨List.mem_of_find?_eq_some h, by simpa using List.find?_some h⟩

theorem slot_match_some (ro : ROMem) (rebindings : List rebindings_entry) (sect : section_t)
    (symtab strtab indirect_symtab i : Nat) (r : rebinding)
    (h : slot_match ro rebindings sect symtab strtab indirect_symtab i = some r) :
    slot_examined ro sect symtab strtab indirect_symtab i ∧
      first_match ro (slot_symbol_name ro sect symtab strtab indirect_symtab i + 1) rebindings
        = some r := by
  unfold slot_match at h
  by_cases he : slot_examined ro sect symtab strtab indirect_symtab i
  · rw [if_pos he] at h; exact ⟨he, h⟩
  · rw [if_neg he] at h; cases h

theorem mem_section_patches (ro : ROMem) (rebindings : List rebindings_entry) (sect : section_t)
    (slide : Int) (symtab strtab indirect_symtab : Nat) (p : Nat × rebinding) :
    p ∈ section_patches ro rebindings sect slide symtab strtab indirect_symtab ↔
      ∃ i, i < sect.size / sizeof_ptr ∧
        slot_match ro rebindings sect symtab strtab indirect_symtab i = some p.2 ∧
        p.1 = slot_addr sect slide i := by
  unfold section_patches
  simp only [List.mem_filterMap, List.mem_range, Option.map_eq_some']
  constructor
  · rintro ⟨i, hi, r, hr, rfl⟩
    exact ⟨i, hi, hr, rfl⟩
  · rintro ⟨i, hi, hr, hp⟩
    exact ⟨i, hi, p.2, hr, by rw [← hp]⟩

theorem section_patches_pairwise (ro : ROMem) (rebindings : List rebindings_entry)
    (sect : section_t) (slide : Int) (symtab strtab indirect_symtab : Nat) :
    (section_patches ro rebindings sect slide symtab strtab indirect_symtab).Pairwise
      (fun p q => p.1 ≠ q.1) := by
  unfold section_patches
  rw [List.pairwise_filterMap]
  refine List.Pairwise.imp ?_ (List.nodup_range (sect.size / sizeof_ptr))
  intro i j hij p hp q hq
  simp only [Option.mem_def, Option.map_eq_some'] at hp hq
  obtain ⟨r, _, rfl⟩ := hp
  obtain ⟨r2, _, rfl⟩ := hq
  exact fun h => hij (slot_addr_inj sect slide i j h)

theorem section_patches_separated (ro : ROMem) (rebindings : List rebindings_entry)
    (sect : section_t) (slide : Int) (symtab strtab indirect_symtab : Nat)
    (h : section_no_alias rebindings sect slide) :
    separated (section_patches ro rebindings sect slide symtab strtab indirect_symtab) := by
  refine ⟨section_patches_pairwise ro rebindings sect slide symtab strtab indirect_symtab, ?_⟩
  intro p hp q hq
  obtain ⟨i, hi, _, hpi⟩ := (mem_section_patches _ _ _ _ _ _ _ _).mp hp
  obtain ⟨j, _, hqj, _⟩ := (mem_section_patches _ _ _ _ _ _ _ _).mp hq
  rw [hpi]
  exact h i hi q.2 (first_match_some _ _ _ _ (slot_match_some _ _ _ _ _ _ _ _ hqj).2).1

theorem run_patches_mem_slot_of (ps : List (Nat × rebinding)) (w : World)
    (hd : ps.Pairwise (fun p q => p.1 ≠ q.1)) (p : Nat × rebinding) (hp : p ∈ ps)
    (hc : ∀ q ∈ ps, q.2.replaced = 0 ∨ q.2.replaced ≠ p.1) :
    (run_patches ps w).mem p.1 = p.2.replacement := by
  induction ps generalizing w with
  | nil => cases hp
  | cons q qs ih =>
    rw [run_patches_cons]
    rcases List.mem_cons.mp hp with rfl | hp1
    · rw [run_patches_mem_other, apply_rebinding_mem_slot]
      intro r hr
      exact ⟨(List.pairwise_cons.mp hd).1 r hr, hc r (List.mem_cons_of_mem _ hr)⟩
    · exact ih _ (List.pairwise_cons.mp hd).2 hp1 (fun r hr => hc r (List.mem_cons_of_mem _ hr))

theorem run_patches_captured_sub (ps : List (Nat × rebinding)) (w : World) :
    ∃ new, (run_patches ps w).captured = new ++ w.captured ∧
      ∀ c ∈ new, ∃ p ∈ ps, c.slot = p.1 ∧ c.out = p.2.replaced ∧ p.2.replaced ≠ 0 := by
  induction ps generalizing w with
  | nil => exact ⟨[], rfl, fun c hc => by cases hc⟩
  | cons q qs ih =>
    obtain ⟨new, hnew, hall⟩ := ih (apply_rebinding q.2 q.1 w)
    rw [run_patches_cons, hnew, apply_rebinding_captured]
    by_cases hg : q.2.replaced ≠ 0 ∧ w.mem q.1 ≠ q.2.replacement
    · refine ⟨new ++ [{ slot := q.1, out := q.2.replaced, value := w.mem q.1 }], ?_, ?_⟩
      · simp [hg]
      · intro c hc
        rcases List.mem_append.mp hc with h1 | h1
        · obtain ⟨p, hp, h⟩ := hall c h1
          exact ⟨p, List.mem_cons_of_mem _ hp, h⟩
        · rw [List.mem_singleton] at h1
          subst h1
          exact ⟨q, List.mem_cons_self _ _, rfl, rfl, hg.1⟩
    · refine ⟨new, ?_, ?_⟩
      · rw [if_neg hg]
      · intro c hc
        obtain ⟨p, hp, h⟩ := hall c hc
        exact ⟨p, List.mem_cons_of_mem _ hp, h⟩

theorem perform_mem_slot (ro : ROMem) (rebindings : List rebindings_entry) (sect : section_t)
    (slide : Int) (symtab strtab indirect_symtab : Nat) (w : World) (i : Nat) (r : rebinding)
    (hi : i < sect.size / sizeof_ptr)
    (hm : slot_match ro rebindings sect symtab strtab indirect_symtab i = some r)
    (hna : no_capture_at rebindings (slot_addr sect slide i)) :
    (perform_rebinding_with_section ro rebindings sect slide symtab strtab indirect_symtab w).mem
      (slot_addr sect slide i) = r.replacement := by
  rw [perform_rebinding_with_section_eq]
  have hp : (slot_addr sect slide i, r) ∈
      section_patches ro rebindings sect slide symtab strtab indirect_symtab :=
    (mem_section_patches _ _ _ _ _ _ _ _).mpr ⟨i, hi, hm, rfl⟩
  refine run_patches_mem_slot_of _ w (section_patches_pairwise _ _ _ _ _ _ _) _ hp ?_
  intro q hq
  obtain ⟨j, _, hqj, _⟩ := (mem_section_patches _ _ _ _ _ _ _ _).mp hq
  exact hna q.2 (first_match_some _ _ _ _ (slot_match_some _ _ _ _ _ _ _ _ hqj).2).1

theorem perform_captured_slot (ro : ROMem) (rebindings : List rebindings_entry)
    (sect : section_t) (slide : Int) (symtab strtab indirect_symtab : Nat) (w : World) :
    ∃ new, (perform_rebinding_with_section ro rebindings sect slide symtab strtab
        indirect_symtab w).captured = new ++ w.captured ∧
      ∀ c ∈ new, ∃ i r, i < sect.size / sizeof_ptr ∧
        slot_match ro rebindings sect symtab strtab indirect_symtab i = some r ∧
        c.slot = slot_addr sect slide i ∧ c.out = r.replaced ∧ r.replaced ≠ 0 := by
  rw [perform_rebinding_with_section_eq]
  obtain ⟨new, hnew, hall⟩ := run_patches_captured_sub
    (section_patches ro rebindings sect slide symtab strtab indirect_symtab) w
  refine ⟨new, hnew, fun c hc => ?_⟩
  obtain ⟨p, hp, h1, h2, h3⟩ := hall c hc
  obtain ⟨i, hi, hm, hpi⟩ := (mem_section_patches _ _ _ _ _ _ _ _).mp hp
  exact ⟨i, p.2, hi, hm, by rw [h1, hpi], h2, h3⟩

/-! ## C5: first match wins -/

/-- C5 as stated fails: with the registry `[f -> 9100 capturing into address
1000, m -> 9001]`, slot 0 of the section (address 1000, name `_m`) is examined
and its first match is the entry for `m`, yet after the pass it holds 7008, the
old value of slot 1, which the capture store made for slot 1 wrote over it. -/
theorem first_match_wins_fails_on_alias :
    0 < Example.sect.size / sizeof_ptr ∧
    slot_examined Example.ro Example.sect 3000 4000 2000 0 ∧
    first_match Example.ro (slot_symbol_name Example.ro Example.sect 3000 4000 2000 0 + 1)
      [{ rebindings := [{ name := Example.name_f, replacement := 9100, replaced := 1000 },
          { name := Example.name_m, replacement := 9001, replaced := 0 }],
         rebindings_nel := 2 }]
      = some { name := Example.name_m, replacement := 9001, replaced := 0 } ∧
    slot_addr Example.sect 0 0 = 1000 ∧
    (perform_rebinding_with_section Example.ro
      [{ rebindings := [{ name := Example.name_f, replacement := 9100, replaced := 1000 },
          { name := Example.name_m, replacement := 9001, replaced := 0 }],
         rebindings_nel := 2 }]
      Example.sect 0 3000 4000 2000 Example.w0).mem 1000 = 7008 := by
  decide

/-- C5 (amended): for every slot of the section that is examined (index not a
sentinel, name of at least 2 characters), if some registry entry's name equals
the slot's name without its first character and no capture output of the
registry is the address of this slot, then the search order splits as
`pre ++ r :: post` with `r` the first entry whose name matches, after the pass
the slot holds `r.replacement`, and every capture store the pass makes on
account of this slot goes to `r.replaced`. -/
theorem first_match_wins (ro : ROMem) (rebindings : List rebindings_entry) (sect : section_t)
    (slide : Int) (symtab strtab indirect_symtab : Nat) (w : World) (i : Nat)
    (hi : i < sect.size / sizeof_ptr)
    (hex : slot_examined ro sect symtab strtab indirect_symtab i)
    (hm : ∃ e ∈ search_order rebindings,
      strcmp_at ro.byte (slot_symbol_name ro sect symtab strtab indirect_symtab i + 1) e.name = 0)
    (hna : no_capture_at rebindings (slot_addr sect slide i)) :
    ∃ pre r post, search_order rebindings = pre ++ r :: post ∧
      (∀ e ∈ pre,
        strcmp_at ro.byte (slot_symbol_name ro sect symtab strtab indirect_symtab i + 1) e.name
          ≠ 0) ∧
      strcmp_at ro.byte (slot_symbol_name ro sect symtab strtab indirect_symtab i + 1) r.name = 0 ∧
      (perform_rebinding_with_section ro rebindings sect slide symtab strtab
        indirect_symtab w).mem (slot_addr sect slide i) = r.replacement ∧
      ∃ new, (perform_rebinding_with_section ro rebindings sect slide symtab strtab
          indirect_symtab w).captured = new ++ w.captured ∧
        ∀ c ∈ new, c.slot = slot_addr sect slide i → c.out = r.replaced := by
  obtain ⟨e, he, hes⟩ := hm
  have hsome : (first_match ro (slot_symbol_name ro sect symtab strtab indirect_symtab i + 1)
      rebindings).isSome := by
    unfold first_match
    rw [List.find?_isSome]
    exact ⟨e, he, by simpa using hes⟩
  obtain ⟨r, hr⟩ := Option.isSome_iff_exists.mp hsome
  have hr1 := hr
  unfold first_match at hr1
  rw [List.find?_eq_some] at hr1
  obtain ⟨hrm, pre, post, hsplit, hpre⟩ := hr1
  have hsm : slot_match ro rebindings sect symtab strtab indirect_symtab i = some r := by
    unfold slot_match
    rw [if_pos hex, hr]
  refine ⟨pre, r, post, hsplit, ?_, by simpa using hrm, ?_, ?_⟩
  · intro e1 he1
    simpa using hpre e1 he1
  · exact perform_mem_slot ro rebindings sect slide symtab strtab indirect_symtab w i r hi hsm hna
  · obtain ⟨new, hnew, hall⟩ := perform_captured_slot ro rebindings sect slide symtab strtab
      indirect_symtab w
    refine ⟨new, hnew, fun c hc hcs => ?_⟩
    obtain ⟨j, r2, _, hm2, hslot, hout, _⟩ := hall c hc
    have hji : j = i := slot_addr_inj sect slide j i (by rw [← hslot, hcs])
    subst hji
    rw [hsm] at hm2
    cases hm2
    exact hout

/-- The instance of `first_match_wins` at slot 0 of the example section with
the registry `m -> 9001`. -/
theorem first_match_wins_witness :
    ∃ pre r post, search_order Example.regs1 = pre ++ r :: post ∧
      (∀ e ∈ pre,
        strcmp_at Example.ro.byte
          (slot_symbol_name Example.ro Example.sect 3000 4000 2000 0 + 1) e.name ≠ 0) ∧
      strcmp_at Example.ro.byte
        (slot_symbol_name Example.ro Example.sect 3000 4000 2000 0 + 1) r.name = 0 ∧
      (perform_rebinding_with_section Example.ro Example.regs1 Example.sect 0 3000 4000 2000
        Example.w0).mem (slot_addr Example.sect 0 0) = r.replacement ∧
      ∃ new, (perform_rebinding_with_section Example.ro Example.regs1 Example.sect 0 3000 4000
          2000 Example.w0).captured = new ++ Example.w0.captured ∧
        ∀ c ∈ new, c.slot = slot_addr Example.sect 0 0 → c.out = r.replaced :=
  first_match_wins Example.ro Example.regs1 Example.sect 0 3000 4000 2000 Example.w0 0
    (by decide) (by decide)
    ⟨{ name := Example.name_m, replacement := 9001, replaced := 500 }, by decide, by decide⟩
    (by decide)

/-! ## C1: precedence of the newest registration -/

theorem first_match_cons (ro : ROMem) (name1 : Nat) (cur : rebindings_entry)
    (next : List rebindings_entry) :
    first_match ro name1 (cur :: next) =
      ((cur.rebindings.take cur.rebindings_nel).find?
        (fun r => decide (strcmp_at ro.byte name1 r.name = 0))).or
        (first_match ro name1 next) := by
  simp [first_match, search_order, List.find?_append]

/-- C1 as stated fails in two ways.  With the sets `m -> 9001` and then
`m -> 9002, f -> 9100 capturing into address 1000` registered, slot 0 (name
`_m`, address 1000) is named by both sets, yet after the pass it holds 7008,
the old value of slot 1.  With two sets naming the empty string registered,
slot 3 of the four-slot section (name `_`, which minus its first character is
the empty string) keeps its old value 7024. -/
theorem newest_registration_wins_fails :
    (slot_examined Example.ro Example.sect 3000 4000 2000 0 ∧
      strcmp_at Example.ro.byte
        (slot_symbol_name Example.ro Example.sect 3000 4000 2000 0 + 1) Example.name_m = 0 ∧
      slot_addr Example.sect 0 0 = 1000 ∧
      (perform_rebinding_with_section Example.ro
        (prepend_rebindings true true
          (prepend_rebindings true true [] Example.set_old 1).2 Example.set_new_alias 2).2
        Example.sect 0 3000 4000 2000 Example.w0).mem 1000 = 7008) ∧
    (strcmp_at Example.ro.byte
        (slot_symbol_name Example.ro Example.sect4 3000 4000 2000 3 + 1) [] = 0 ∧
      slot_addr Example.sect4 0 3 = 1024 ∧
      (perform_rebinding_with_section Example.ro
        (prepend_rebindings true true
          (prepend_rebindings true true [] Example.set_old_empty 1).2 Example.set_new_empty 1).2
        Example.sect4 0 3000 4000 2000 Example.w0).mem 1024 = 7024) := by
  decide

/-- C1 (amended): let the registry be the result of two successful
`prepend_rebindings` calls, first with the set `A` and then with the set `B`,
on any earlier registry.  For every slot of the section that is examined
(index not a sentinel, name of at least 2 characters) whose name without its
first character is named by an entry of `B`, and whose address is no capture
output of the registry, after `perform_rebinding_with_section` the slot holds
the replacement of an entry of `B` that names it, and so none of the different
replacements of `A`. -/
theorem newest_registration_wins (ro : ROMem) (head0 : List rebindings_entry)
    (A : List rebinding) (nelA : Nat) (B : List rebinding) (nelB : Nat) (sect : section_t)
    (slide : Int) (symtab strtab indirect_symtab : Nat) (w : World) (i : Nat)
    (hi : i < sect.size / sizeof_ptr)
    (hex : slot_examined ro sect symtab strtab indirect_symtab i)
    (hB : ∃ b ∈ B.take nelB,
      strcmp_at ro.byte (slot_symbol_name ro sect symtab strtab indirect_symtab i + 1) b.name = 0)
    (hna : no_capture_at
      (prepend_rebindings true true (prepend_rebindings true true head0 A nelA).2 B nelB).2
      (slot_addr sect slide i)) :
    ∃ b ∈ B.take nelB,
      strcmp_at ro.byte (slot_symbol_name ro sect symtab strtab indirect_symtab i + 1) b.name = 0 ∧
      (perform_rebinding_with_section ro
        (prepend_rebindings true true (prepend_rebindings true true head0 A nelA).2 B nelB).2
        sect slide symtab strtab indirect_symtab w).mem (slot_addr sect slide i)
          = b.replacement ∧
      ∀ a ∈ A.take nelA, a.replacement ≠ b.replacement →
        (perform_rebinding_with_section ro
          (prepend_rebindings true true (prepend_rebindings true true head0 A nelA).2 B nelB).2
          sect slide symtab strtab indirect_symtab w).mem (slot_addr sect slide i)
            ≠ a.replacement := by
  obtain ⟨b0, hb0, hb0s⟩ := hB
  have hregs : (prepend_rebindings true true (prepend_rebindings true true head0 A nelA).2
      B nelB).2 = { rebindings := B.take nelB, rebindings_nel := nelB } ::
        { rebindings := A.take nelA, rebindings_nel := nelA } :: head0 := by
    simp [prepend_rebindings]
  rw [hregs] at hna ⊢
  have hsome : ((B.take nelB).find? (fun r => decide (strcmp_at ro.byte
      (slot_symbol_name ro sect symtab strtab indirect_symtab i + 1) r.name = 0))).isSome := by
    rw [List.find?_isSome]
    exact ⟨b0, hb0, by simpa using hb0s⟩
  obtain ⟨b, hb⟩ := Option.isSome_iff_exists.mp hsome
  have hfm : first_match ro (slot_symbol_name ro sect symtab strtab indirect_symtab i + 1)
      ({ rebindings := B.take nelB, rebindings_nel := nelB } ::
        { rebindings := A.take nelA, rebindings_nel := nelA } :: head0) = some b := by
    rw [first_match_cons]
    simp only [List.take_take, Nat.min_self, hb]
    rfl
  have hsm : slot_match ro ({ rebindings := B.take nelB, rebindings_nel := nelB } ::
      { rebindings := A.take nelA, rebindings_nel := nelA } :: head0) sect symtab strtab
      indirect_symtab i = some b := by
    unfold slot_match
    rw [if_pos hex, hfm]
  have hval := perform_mem_slot ro _ sect slide symtab strtab indirect_symtab w i b hi hsm hna
  refine ⟨b, List.mem_of_find?_eq_some hb, by simpa using List.find?_some hb, hval, ?_⟩
  intro a _ hne
  rw [hval]
  exact fun h => hne h.symm

/-- The instance of `newest_registration_wins` at slot 0 of the example section
with the sets `m -> 9001` and then `m -> 9002`. -/
theorem newest_registration_wins_witness :
    ∃ b ∈ Example.set_new.take 1,
      strcmp_at Example.ro.byte
        (slot_symbol_name Example.ro Example.sect 3000 4000 2000 0 + 1) b.name = 0 ∧
      (perform_rebinding_with_section Example.ro
        (prepend_rebindings true true
          (prepend_rebindings true true [] Example.set_old 1).2 Example.set_new 1).2
        Example.sect 0 3000 4000 2000 Example.w0).mem (slot_addr Example.sect 0 0)
          = b.replacement ∧
      ∀ a ∈ Example.set_old.take 1, a.replacement ≠ b.replacement →
        (perform_rebinding_with_section Example.ro
          (prepend_rebindings true true
            (prepend_rebindings true true [] Example.set_old 1).2 Example.set_new 1).2
          Example.sect 0 3000 4000 2000 Example.w0).mem (slot_addr Example.sect 0 0)
            ≠ a.replacement :=
  newest_registration_wins Example.ro [] Example.set_old 1 Example.set_new 1 Example.sect 0
    3000 4000 2000 Example.w0 0 (by decide) (by decide)
    ⟨{ name := Example.name_m, replacement := 9002, replaced := 0 }, by decide, by decide⟩
    (by decide)

/-! ## The entry points as runs of patches -/

theorem foldl_range_get? {α β : Type} (f : β → α → β) (l : List α) (g : β → Nat → β)
    (hg : ∀ st i, g st i = (l.get? i).elim st (f st)) (b : β) :
    (List.range l.length).foldl g b = l.foldl f b := by
  have key : ∀ (l1 : List α) (b : β),
      (List.range l1.length).foldl (fun st i => (l1.get? i).elim st (f st)) b = l1.foldl f b := by
    intro l1
    induction l1 using List.reverseRecOn with
    | nil => intro b; rfl
    | append_singleton l2 x ih =>
      intro b
      rw [List.length_append, List.length_singleton, List.range_succ, List.foldl_append,
        List.foldl_append]
      have h1 : (List.range l2.length).foldl
          (fun st i => ((l2 ++ [x]).get? i).elim st (f st)) b = l2.foldl f b := by
        rw [← ih b]
        apply List.foldl_ext
        intro a i hi
        rw [List.mem_range] at hi
        simp [List.getElem?_append_left hi]
      rw [h1]
      simp
  rw [← key l b]
  apply List.foldl_ext
  intro a i _
  exact hg a i

theorem foldl_images_eq (ro : ROMem) (images : List loaded_image) (s : State) :
    images.foldl (fun st img => _rebind_symbols_for_image ro img.header img.slide st) s =
      { s with world := run_patches (all_patches ro s._rebindings_head images) s.world } := by
  induction images generalizing s with
  | nil => rfl
  | cons img imgs ih =>
    rw [List.foldl_cons, ih]
    simp [_rebind_symbols_for_image, all_patches, run_patches_append,
      rebind_symbols_for_image_eq]

theorem rebind_symbols_success (ro : ROMem) (rebindings : List rebinding) (nel : Nat)
    (s : State) :
    rebind_symbols ro true true rebindings nel s =
      (0, { _rebindings_head :=
              { rebindings := rebindings.take nel, rebindings_nel := nel } :: s._rebindings_head,
            world := run_patches (all_patches ro
              ({ rebindings := rebindings.take nel, rebindings_nel := nel } :: s._rebindings_head)
              s.images) s.world,
            add_image_calls := s.add_image_calls + (if s._rebindings_head = [] then 1 else 0),
            images := s.images }) := by
  unfold rebind_symbols
  simp only [prepend_rebindings, Bool.not_true, Bool.false_eq_true, if_false, List.tail_cons]
  by_cases h : s._rebindings_head = []
  · simp [h, _dyld_register_func_for_add_image, foldl_images_eq]
  · rw [if_neg (by decide), if_neg h, if_neg h]
    refine Prod.ext rfl ?_
    refine (foldl_range_get?
      (fun (st : State) (img : loaded_image) =>
        _rebind_symbols_for_image ro img.header img.slide st) s.images _ ?_ _).trans
      (foldl_images_eq ro s.images _)
    intro st i
    cases s.images.get? i <;> rfl

theorem rebind_symbols_failure (ro : ROMem) (malloc_entry malloc_rebindings : Bool)
    (rebindings : List rebinding) (nel : Nat) (s : State)
    (h : malloc_entry = false ∨ malloc_rebindings = false) :
    rebind_symbols ro malloc_entry malloc_rebindings rebindings nel s = (-1, s) := by
  unfold rebind_symbols prepend_rebindings
  rcases h with h | h
  · subst h; simp
  · subst h; cases malloc_entry <;> simp

theorem mem_all_patches (ro : ROMem) (rebindings : List rebindings_entry)
    (images : List loaded_image) (p : Nat × rebinding) :
    p ∈ all_patches ro rebindings images ↔
      ∃ img ∈ images, ∃ symtab strtab indirect_symtab,
        image_tables img.header img.slide = some (symtab, strtab, indirect_symtab) ∧
        ∃ sect ∈ scanned_sections img.header, ∃ i, i < sect.size / sizeof_ptr ∧
          slot_match ro rebindings sect symtab strtab indirect_symtab i = some p.2 ∧
          p.1 = slot_addr sect img.slide i := by
  unfold all_patches image_patches
  simp only [List.mem_flatMap]
  constructor
  · rintro ⟨img, himg, hp⟩
    cases ht : image_tables img.header img.slide with
    | none => rw [ht] at hp; cases hp
    | some t =>
      obtain ⟨symtab, strtab, indirect_symtab⟩ := t
      rw [ht] at hp
      simp only [List.mem_flatMap] at hp
      obtain ⟨sect, hsect, hps⟩ := hp
      obtain ⟨i, hi, hm, hpi⟩ := (mem_section_patches _ _ _ _ _ _ _ _).mp hps
      exact ⟨img, himg, symtab, strtab, indirect_symtab, ht, sect, hsect, i, hi, hm, hpi⟩
  · rintro ⟨img, himg, symtab, strtab, indirect_symtab, ht, sect, hsect, i, hi, hm, hpi⟩
    refine ⟨img, himg, ?_⟩
    rw [ht]
    simp only [List.mem_flatMap]
    exact ⟨sect, hsect, (mem_section_patches _ _ _ _ _ _ _ _).mpr ⟨i, hi, hm, hpi⟩⟩

theorem all_patches_scanned_slot (ro : ROMem) (rebindings : List rebindings_entry)
    (images : List loaded_image) (p : Nat × rebinding)
    (hp : p ∈ all_patches ro rebindings images) : scanned_slot images p.1 := by
  obtain ⟨img, himg, _, _, _, _, sect, hsect, i, hi, _, hpi⟩ :=
    (mem_all_patches ro rebindings images p).mp hp
  exact ⟨img, himg, sect, hsect, i, hi, hpi⟩

theorem all_patches_entry (ro : ROMem) (rebindings : List rebindings_entry)
    (images : List loaded_image) (p : Nat × rebinding)
    (hp : p ∈ all_patches ro rebindings images) : p.2 ∈ search_order rebindings := by
  obtain ⟨img, _, _, _, _, _, sect, _, i, _, hm, _⟩ :=
    (mem_all_patches ro rebindings images p).mp hp
  exact (first_match_some _ _ _ _ (slot_match_some _ _ _ _ _ _ _ _ hm).2).1

/-! ## C4: patching twice is patching once -/

/-- C4: for every registry, section and initial memory such that no capture
output of the registry is the address of a slot of the section, running
`perform_rebinding_with_section` a second time with the same registry leaves
every memory word (every slot and every capture output) as the first run left
it, and adds nothing to the record of capture stores: the second run writes no
capture output. -/
theorem patching_idempotent (ro : ROMem) (rebindings : List rebindings_entry)
    (sect : section_t) (slide : Int) (symtab strtab indirect_symtab : Nat) (w : World)
    (hna : section_no_alias rebindings sect slide) :
    (∀ a, (perform_rebinding_with_section ro rebindings sect slide symtab strtab indirect_symtab
        (perform_rebinding_with_section ro rebindings sect slide symtab strtab indirect_symtab
          w)).mem a =
      (perform_rebinding_with_section ro rebindings sect slide symtab strtab indirect_symtab
        w).mem a) ∧
    (perform_rebinding_with_section ro rebindings sect slide symtab strtab indirect_symtab
        (perform_rebinding_with_section ro rebindings sect slide symtab strtab indirect_symtab
          w)).captured =
      (perform_rebinding_with_section ro rebindings sect slide symtab strtab indirect_symtab
        w).captured := by
  have h : perform_rebinding_with_section ro rebindings sect slide symtab strtab indirect_symtab
      (perform_rebinding_with_section ro rebindings sect slide symtab strtab indirect_symtab w) =
      perform_rebinding_with_section ro rebindings sect slide symtab strtab indirect_symtab w := by
    simp only [perform_rebinding_with_section_eq]
    exact run_patches_idempotent _ w
      (section_patches_separated ro rebindings sect slide symtab strtab indirect_symtab hna)
  rw [h]
  exact ⟨fun _ => rfl, rfl⟩

/-- The instance of `patching_idempotent` at the example section with the
registry `m -> 9001` capturing into address 500. -/
theorem patching_idempotent_witness :
    (∀ a, (perform_rebinding_with_section Example.ro Example.regs1 Example.sect 0 3000 4000 2000
        (perform_rebinding_with_section Example.ro Example.regs1 Example.sect 0 3000 4000 2000
          Example.w0)).mem a =
      (perform_rebinding_with_section Example.ro Example.regs1 Example.sect 0 3000 4000 2000
        Example.w0).mem a) ∧
    (perform_rebinding_with_section Example.ro Example.regs1 Example.sect 0 3000 4000 2000
        (perform_rebinding_with_section Example.ro Example.regs1 Example.sect 0 3000 4000 2000
          Example.w0)).captured =
      (perform_rebinding_with_section Example.ro Example.regs1 Example.sect 0 3000 4000 2000
        Example.w0).captured :=
  patching_idempotent Example.ro Example.regs1 Example.sect 0 3000 4000 2000 Example.w0
    (by decide)

/-! ## C6, C7: registration -/

/-- C6: when either allocation of `prepend_rebindings` fails it returns a
negative status and leaves the registry head as it was; `rebind_symbols` then
returns that status and the whole state (registry, memory, record of capture
stores, number of subscriptions, images) is unchanged. -/
theorem registration_failure_atomic (ro : ROMem) (malloc_entry malloc_rebindings : Bool)
    (rebindings_head : List rebindings_entry) (rebindings : List rebinding) (nel : Nat)
    (s : State) (h : malloc_entry = false ∨ malloc_rebindings = false) :
    (prepend_rebindings malloc_entry malloc_rebindings rebindings_head rebindings nel).1 < 0 ∧
    (prepend_rebindings malloc_entry malloc_rebindings rebindings_head rebindings nel).2
      = rebindings_head ∧
    (rebind_symbols ro malloc_entry malloc_rebindings rebindings nel s).1 =
      (prepend_rebindings malloc_entry malloc_rebindings s._rebindings_head rebindings nel).1 ∧
    (rebind_symbols ro malloc_entry malloc_rebindings rebindings nel s).1 < 0 ∧
    (rebind_symbols ro malloc_entry malloc_rebindings rebindings nel s).2 = s := by
  rw [rebind_symbols_failure ro malloc_entry malloc_rebindings rebindings nel s h]
  rcases h with h | h
  · subst h; simp [prepend_rebindings]
  · subst h; cases malloc_entry <;> simp [prepend_rebindings]

/-- The instance of `registration_failure_atomic` where the second allocation
fails, on the example state after one registration. -/
theorem registration_failure_atomic_witness :
    (prepend_rebindings true false Example.regs1 Example.set_new 1).1 < 0 ∧
    (prepend_rebindings true false Example.regs1 Example.set_new 1).2 = Example.regs1 ∧
    (rebind_symbols Example.ro true false Example.set_new 1 Example.s1).1 =
      (prepend_rebindings true false Example.s1._rebindings_head Example.set_new 1).1 ∧
    (rebind_symbols Example.ro true false Example.set_new 1 Example.s1).1 < 0 ∧
    (rebind_symbols Example.ro true false Example.set_new 1 Example.s1).2 = Example.s1 :=
  registration_failure_atomic Example.ro true false Example.regs1 Example.set_new 1 Example.s1
    (Or.inr rfl)

/-- C7: when both allocations succeed and the submitted array has `nel`
elements (the first `nel` elements of `rebindings`), `prepend_rebindings`
returns 0 and the registry becomes a new head node whose entries are the
submitted ones, element for element, in the same order and with the same count
`nel`, followed by the whole previous list unchanged; and whatever the
allocations do, the previous list is a suffix of the new one, so no node is ever
removed or reordered and newer nodes come first. -/
theorem prepend_rebindings_success (rebindings_head : List rebindings_entry)
    (rebindings : List rebinding) (nel : Nat) (hnel : nel ≤ rebindings.length) :
    (prepend_rebindings true true rebindings_head rebindings nel).1 = 0 ∧
    (∃ node, (prepend_rebindings true true rebindings_head rebindings nel).2
        = node :: rebindings_head ∧
      node.rebindings = rebindings.take nel ∧ node.rebindings.length = nel ∧
      node.rebindings_nel = nel ∧
      (∀ j, j < nel → node.rebindings.get? j = rebindings.get? j) ∧
      (nel = rebindings.length → node.rebindings = rebindings)) ∧
    ∀ malloc_entry malloc_rebindings,
      rebindings_head <:+
        (prepend_rebindings malloc_entry malloc_rebindings rebindings_head rebindings nel).2 := by
  refine ⟨rfl, ⟨rebindings_entry.mk (rebindings.take nel) nel, rfl, rfl, ?_, rfl, ?_, ?_⟩, ?_⟩
  · simpa using hnel
  · intro j hj
    simp [List.getElem?_take, hj]
  · intro h
    subst h
    simp
  · intro me mr
    cases me <;> cases mr <;> simp [prepend_rebindings]

/-- The instance of `prepend_rebindings_success` that prepends the set
`m -> 9002, f -> 9100` to the registry `m -> 9001`. -/
theorem prepend_rebindings_success_witness :
    (prepend_rebindings true true Example.regs1 Example.set_new_alias 2).1 = 0 ∧
    (∃ node, (prepend_rebindings true true Example.regs1 Example.set_new_alias 2).2
        = node :: Example.regs1 ∧
      node.rebindings = Example.set_new_alias.take 2 ∧ node.rebindings.length = 2 ∧
      node.rebindings_nel = 2 ∧
      (∀ j, j < 2 → node.rebindings.get? j = Example.set_new_alias.get? j) ∧
      (2 = Example.set_new_alias.length → node.rebindings = Example.set_new_alias)) ∧
    ∀ malloc_entry malloc_rebindings,
      Example.regs1 <:+
        (prepend_rebindings malloc_entry malloc_rebindings Example.regs1
          Example.set_new_alias 2).2 :=
  prepend_rebindings_success Example.regs1 Example.set_new_alias 2 (by decide)

/-! ## C8: the one-off entry point -/

/-- C8: for every header, slide and substitution set, `rebind_symbols_image`
leaves the global registry, the number of loader subscriptions and the loader's
images unchanged; when both allocations succeed it returns 0 and its effect on
memory and on the record of capture stores is that of one run of
`rebind_symbols_for_image` on the given image with the registry made of the
single submitted set; and its status and its effect are the same from any other
state with the same memory, whatever the global registry holds there. -/
theorem rebind_symbols_image_isolated (ro : ROMem) (malloc_entry malloc_rebindings : Bool)
    (header : mach_header) (slide : Int) (rebindings : List rebinding) (nel : Nat) (s : State) :
    ((rebind_symbols_image ro malloc_entry malloc_rebindings header slide rebindings nel s).2._rebindings_head = s._rebindings_head ∧
      (rebind_symbols_image ro malloc_entry malloc_rebindings header slide rebindings nel s).2.add_image_calls = s.add_image_calls ∧
      (rebind_symbols_image ro malloc_entry malloc_rebindings header slide rebindings nel s).2.images = s.images) ∧
    (malloc_entry = true → malloc_rebindings = true →
      (rebind_symbols_image ro malloc_entry malloc_rebindings header slide rebindings nel s).1
        = 0 ∧
      (rebind_symbols_image ro malloc_entry malloc_rebindings header slide rebindings nel s).2.world = rebind_symbols_for_image ro
          [{ rebindings := rebindings.take nel, rebindings_nel := nel }] header slide s.world) ∧
    ∀ s2 : State, s2.world = s.world →
      (rebind_symbols_image ro malloc_entry malloc_rebindings header slide rebindings nel s2).1 =
        (rebind_symbols_image ro malloc_entry malloc_rebindings header slide rebindings nel s).1 ∧
      (rebind_symbols_image ro malloc_entry malloc_rebindings header slide rebindings nel s2).2.world =
        (rebind_symbols_image ro malloc_entry malloc_rebindings header slide rebindings nel s).2.world := by
  refine ⟨⟨rfl, rfl, rfl⟩, ?_, ?_⟩
  · intro h1 h2
    subst h1 h2
    exact ⟨rfl, rfl⟩
  · intro s2 h2
    simp [rebind_symbols_image, h2]

/-- The instance of `rebind_symbols_image_isolated` that applies the set
`m -> 9002` to the example image in the example state after one registration. -/
theorem rebind_symbols_image_isolated_witness :
    (rebind_symbols_image Example.ro true true Example.header 0 Example.set_new 1 Example.s1).1
      = 0 ∧
    (rebind_symbols_image Example.ro true true Example.header 0 Example.set_new 1 Example.s1).2.world = rebind_symbols_for_image Example.ro
        [{ rebindings := Example.set_new.take 1, rebindings_nel := 1 }] Example.header 0
        Example.s1.world :=
  (rebind_symbols_image_isolated Example.ro true true Example.header 0 Example.set_new 1
    Example.s1).2.1 rfl rfl

/-! ## C9: the loader subscription -/

theorem do_call_count (ro : ROMem) (c : Call) (s : State) :
    (do_call ro c s).2.add_image_calls = s.add_image_calls +
        (if successful_registration c = true ∧ s._rebindings_head = [] then 1 else 0) ∧
      ((do_call ro c s).2._rebindings_head = [] ↔
        s._rebindings_head = [] ∧ successful_registration c = false) := by
  cases c with
  | rebind_symbols me mr rebindings nel =>
    by_cases hs : me = true ∧ mr = true
    · obtain ⟨h1, h2⟩ := hs
      subst h1 h2
      simp only [do_call, rebind_symbols_success, successful_registration, Bool.and_self,
        true_and]
      simp
    · have hf : me = false ∨ mr = false := by
        cases me <;> cases mr <;> simp at hs ⊢
      have hsr : successful_registration (Call.rebind_symbols me mr rebindings nel) = false := by
        rcases hf with h | h <;> subst h <;> simp [successful_registration]
      simp only [do_call, rebind_symbols_failure ro me mr rebindings nel s hf, hsr]
      simp
  | rebind_symbols_image me mr header slide rebindings nel =>
    simp [do_call, rebind_symbols_image, successful_registration]

theorem run_calls_invariant (ro : ROMem) (cs : List Call) (s : State)
    (h : s.add_image_calls = if s._rebindings_head = [] then 0 else 1) :
    (run_calls ro cs s).add_image_calls =
      if (run_calls ro cs s)._rebindings_head = [] then 0 else 1 := by
  induction cs generalizing s with
  | nil => exact h
  | cons c cs ih =>
    apply ih
    obtain ⟨hc, hh⟩ := do_call_count ro c s
    rw [hc, h]
    by_cases h1 : s._rebindings_head = []
    · by_cases h2 : successful_registration c = true
      · have : ¬ ((do_call ro c s).2._rebindings_head = []) := by
          rw [hh]; simp [h2]
        simp [h1, h2, this]
      · have : (do_call ro c s).2._rebindings_head = [] := by
          rw [hh]; exact ⟨h1, by simpa using h2⟩
        simp [h1, h2, this]
    · have : ¬ ((do_call ro c s).2._rebindings_head = []) := by
        rw [hh]; simp [h1]
      simp [h1, this]

/-- C9: start from a state with an empty global registry and no subscription
and make any sequence of calls to `rebind_symbols` and `rebind_symbols_image`,
with any allocation outcomes.  In the state reached,
`_dyld_register_func_for_add_image` has been called at most once, and it has
been called iff the global registry is non-empty.  A further `rebind_symbols`
call invokes it (once) iff that call returns 0 and the global registry was
empty before the call, and a further `rebind_symbols_image` call never does. -/
theorem subscription_on_first_success (ro : ROMem) (s0 : State) (cs : List Call)
    (h0 : s0._rebindings_head = []) (h1 : s0.add_image_calls = 0) :
    (run_calls ro cs s0).add_image_calls ≤ 1 ∧
    ((run_calls ro cs s0).add_image_calls = 1 ↔ (run_calls ro cs s0)._rebindings_head ≠ []) ∧
    (∀ me mr rebindings nel,
      ((rebind_symbols ro me mr rebindings nel (run_calls ro cs s0)).2.add_image_calls =
          (run_calls ro cs s0).add_image_calls + 1 ↔
        (rebind_symbols ro me mr rebindings nel (run_calls ro cs s0)).1 = 0 ∧
          (run_calls ro cs s0)._rebindings_head = []) ∧
      ((rebind_symbols ro me mr rebindings nel (run_calls ro cs s0)).2.add_image_calls ≠
          (run_calls ro cs s0).add_image_calls + 1 →
        (rebind_symbols ro me mr rebindings nel (run_calls ro cs s0)).2.add_image_calls =
          (run_calls ro cs s0).add_image_calls)) ∧
    ∀ me mr header slide rebindings nel,
      (rebind_symbols_image ro me mr header slide rebindings nel
        (run_calls ro cs s0)).2.add_image_calls = (run_calls ro cs s0).add_image_calls := by
  have hinv := run_calls_invariant ro cs s0 (by rw [h1, h0]; rfl)
  generalize run_calls ro cs s0 = s at hinv ⊢
  refine ⟨?_, ?_, ?_, ?_⟩
  · rw [hinv]; split <;> omega
  · rw [hinv]; split <;> simp_all
  · intro me mr rebindings nel
    by_cases hs : me = true ∧ mr = true
    · obtain ⟨ha, hb⟩ := hs
      subst ha hb
      simp only [rebind_symbols_success]
      by_cases hh : s._rebindings_head = []
      · simp [hh]
      · simp [hh]
    · have hf : me = false ∨ mr = false := by
        cases me <;> cases mr <;> simp at hs ⊢
      simp [rebind_symbols_failure ro me mr rebindings nel s hf]
  · intro me mr header slide rebindings nel
    rfl

/-- The instance of `subscription_on_first_success` for the sequence: a failed
registration, a one-off application, a successful registration and a second
successful registration, from the example start state. -/
theorem subscription_on_first_success_witness :
    (run_calls Example.ro
      [Call.rebind_symbols false true Example.set_old 1,
       Call.rebind_symbols_image true true Example.header 0 Example.set_old 1,
       Call.rebind_symbols true true Example.set_old 1,
       Call.rebind_symbols true true Example.set_new 1] Example.s0).add_image_calls ≤ 1 :=
  (subscription_on_first_success Example.ro Example.s0
    [Call.rebind_symbols false true Example.set_old 1,
     Call.rebind_symbols_image true true Example.header 0 Example.set_old 1,
     Call.rebind_symbols true true Example.set_old 1,
     Call.rebind_symbols true true Example.set_new 1] rfl rfl).1

/-! ## Runs in which every patch installs the same entry -/

theorem apply_rebinding_keeps (r : rebinding) (slot a v : Nat) (w : World)
    (hv : r.replacement = v) (hc : r.replaced = 0 ∨ r.replaced ≠ a) (h : w.mem a = v) :
    (apply_rebinding r slot w).mem a = v := by
  by_cases hs : a = slot
  · subst hs; rw [apply_rebinding_mem_slot, hv]
  · rw [apply_rebinding_mem_other r slot a w hs hc, h]

theorem run_uniform_mem (S : Nat → Prop) (v : Nat) (ps : List (Nat × rebinding)) (w : World)
    (hps : ∀ p ∈ ps, p.2.replacement = v ∧ (p.2.replaced = 0 ∨ ¬ S p.2.replaced))
    (a : Nat) (ha : S a) (h : w.mem a = v ∨ ∃ p ∈ ps, p.1 = a) :
    (run_patches ps w).mem a = v := by
  induction ps generalizing w with
  | nil =>
    rcases h with h | ⟨p, hp, _⟩
    · exact h
    · cases hp
  | cons q qs ih =>
    rw [run_patches_cons]
    have hq := hps q (List.mem_cons_self _ _)
    have hqc : q.2.replaced = 0 ∨ q.2.replaced ≠ a := by
      rcases hq.2 with h0 | h0
      · exact Or.inl h0
      · exact Or.inr (fun he => h0 (he ▸ ha))
    apply ih _ (fun p hp => hps p (List.mem_cons_of_mem _ hp))
    rcases h with h | ⟨p, hp, hpa⟩
    · exact Or.inl (apply_rebinding_keeps q.2 q.1 a v w hq.1 hqc h)
    · rcases List.mem_cons.mp hp with rfl | hp1
      · left; rw [← hpa, apply_rebinding_mem_slot]; exact hq.1
      · exact Or.inr ⟨p, hp1, hpa⟩

theorem run_uniform_captured (S : Nat → Prop) (e : rebinding) (m0 : Nat → Nat)
    (he : e.replaced = 0 ∨ ¬ S e.replaced) (ps : List (Nat × rebinding)) (w : World)
    (hps : ∀ p ∈ ps, p.2 = e ∧ S p.1)
    (hw : ∀ a, S a → w.mem a = m0 a ∨ w.mem a = e.replacement) :
    ∃ new, (run_patches ps w).captured = new ++ w.captured ∧
      ∀ c ∈ new, c.out = e.replaced ∧ c.value = m0 c.slot ∧ ∃ p ∈ ps, c.slot = p.1 := by
  induction ps generalizing w with
  | nil => exact ⟨[], rfl, fun c hc => by cases hc⟩
  | cons q qs ih =>
    have hq := hps q (List.mem_cons_self _ _)
    have hw1 : ∀ a, S a → (apply_rebinding q.2 q.1 w).mem a = m0 a ∨
        (apply_rebinding q.2 q.1 w).mem a = e.replacement := by
      intro a ha
      by_cases hs : a = q.1
      · right; rw [hs, apply_rebinding_mem_slot, hq.1]
      · rw [apply_rebinding_mem_other q.2 q.1 a w hs]
        · exact hw a ha
        · rw [hq.1]
          rcases he with h0 | h0
          · exact Or.inl h0
          · exact Or.inr (fun hh => h0 (hh ▸ ha))
    obtain ⟨new, hnew, hall⟩ := ih (apply_rebinding q.2 q.1 w)
      (fun p hp => hps p (List.mem_cons_of_mem _ hp)) hw1
    rw [run_patches_cons, hnew, apply_rebinding_captured]
    by_cases hg : q.2.replaced ≠ 0 ∧ w.mem q.1 ≠ q.2.replacement
    · refine ⟨new ++ [{ slot := q.1, out := q.2.replaced, value := w.mem q.1 }], ?_, ?_⟩
      · simp [hg]
      · intro c hc
        rcases List.mem_append.mp hc with h1 | h1
        · obtain ⟨h2, h3, p, hp, h4⟩ := hall c h1
          exact ⟨h2, h3, p, List.mem_cons_of_mem _ hp, h4⟩
        · rw [List.mem_singleton] at h1
          subst h1
          refine ⟨by rw [hq.1], ?_, q, List.mem_cons_self _ _, rfl⟩
          rcases hw q.1 hq.2 with h5 | h5
          · exact h5
          · exact absurd (by rw [hq.1]; exact h5) hg.2
    · refine ⟨new, by rw [if_neg hg], ?_⟩
      intro c hc
      obtain ⟨h2, h3, p, hp, h4⟩ := hall c hc
      exact ⟨h2, h3, p, List.mem_cons_of_mem _ hp, h4⟩

theorem run_uniform_out (S : Nat → Prop) (e : rebinding) (v : Nat)
    (he0 : e.replaced ≠ 0) (heS : ¬ S e.replaced) (hv : v ≠ e.replacement)
    (ps : List (Nat × rebinding)) (w : World)
    (hps : ∀ p ∈ ps, p.2 = e ∧ S p.1)
    (hw : ∀ p ∈ ps, w.mem p.1 = v ∨ w.mem p.1 = e.replacement)
    (h : w.mem e.replaced = v ∨ ∃ p ∈ ps, w.mem p.1 = v) :
    (run_patches ps w).mem e.replaced = v := by
  induction ps generalizing w with
  | nil =>
    rcases h with h | ⟨p, hp, _⟩
    · exact h
    · cases hp
  | cons q qs ih =>
    rw [run_patches_cons]
    have hq := hps q (List.mem_cons_self _ _)
    have hne : e.replaced ≠ q.1 := fun hh => heS (hh ▸ hq.2)
    by_cases hcur : w.mem q.1 = e.replacement
    · rw [apply_rebinding_fixed q.2 q.1 w (by rw [hq.1]; exact hcur)]
      apply ih w (fun p hp => hps p (List.mem_cons_of_mem _ hp))
        (fun p hp => hw p (List.mem_cons_of_mem _ hp))
      rcases h with h | ⟨p, hp, hpv⟩
      · exact Or.inl h
      · rcases List.mem_cons.mp hp with rfl | hp1
        · exact absurd (hpv.symm.trans hcur) hv
        · exact Or.inr ⟨p, hp1, hpv⟩
    · have hqv : w.mem q.1 = v := by
        rcases hw q (List.mem_cons_self _ _) with h1 | h1
        · exact h1
        · exact absurd h1 hcur
      have hout : (apply_rebinding q.2 q.1 w).mem e.replaced = v := by
        unfold apply_rebinding
        rw [hq.1, if_pos ⟨he0, hcur⟩]
        simp [store, hne, hqv]
      apply ih _ (fun p hp => hps p (List.mem_cons_of_mem _ hp)) ?_ (Or.inl hout)
      intro p hp
      by_cases hs : p.1 = q.1
      · right; rw [hs, apply_rebinding_mem_slot, hq.1]
      · rw [apply_rebinding_mem_other q.2 q.1 p.1 w hs]
        · exact hw p (List.mem_cons_of_mem _ hp)
        · rw [hq.1]
          exact Or.inr (fun hh => heS (hh ▸ (hps p (List.mem_cons_of_mem _ hp)).2))

/-! ## Registering the same name twice -/

theorem register_one_eq (ro : ROMem) (s : State) (e : rebinding) :
    register_one ro s e =
      { _rebindings_head := { rebindings := [e], rebindings_nel := 1 } :: s._rebindings_head,
        world := run_patches (all_patches ro
          ({ rebindings := [e], rebindings_nel := 1 } :: s._rebindings_head) s.images) s.world,
        add_image_calls := s.add_image_calls + (if s._rebindings_head = [] then 1 else 0),
        images := s.images } := by
  unfold register_one
  rw [rebind_symbols_success]
  rfl

theorem first_match_one (ro : ROMem) (name1 : Nat) (e : rebinding) :
    first_match ro name1 [{ rebindings := [e], rebindings_nel := 1 }] =
      if strcmp_at ro.byte name1 e.name = 0 then some e else none := by
  by_cases h : strcmp_at ro.byte name1 e.name = 0
  · simp [first_match, search_order, h]
  · simp [first_match, search_order, h]

theorem first_match_two (ro : ROMem) (name1 : Nat) (eB eA : rebinding)
    (hn : eA.name = eB.name) :
    first_match ro name1 [{ rebindings := [eB], rebindings_nel := 1 },
        { rebindings := [eA], rebindings_nel := 1 }] =
      if strcmp_at ro.byte name1 eB.name = 0 then some eB else none := by
  by_cases h : strcmp_at ro.byte name1 eB.name = 0
  · simp [first_match, search_order, h]
  · simp [first_match, search_order, h, hn]

theorem slot_match_one (ro : ROMem) (e : rebinding) (sect : section_t)
    (symtab strtab indirect_symtab i : Nat) (r : rebinding) :
    slot_match ro [{ rebindings := [e], rebindings_nel := 1 }] sect symtab strtab
        indirect_symtab i = some r ↔
      r = e ∧ slot_examined ro sect symtab strtab indirect_symtab i ∧
        strcmp_at ro.byte (slot_symbol_name ro sect symtab strtab indirect_symtab i + 1) e.name
          = 0 := by
  unfold slot_match
  rw [first_match_one]
  by_cases h1 : slot_examined ro sect symtab strtab indirect_symtab i
  · by_cases h2 : strcmp_at ro.byte
        (slot_symbol_name ro sect symtab strtab indirect_symtab i + 1) e.name = 0
    · simp [h1, h2, eq_comm]
    · simp [h1, h2]
  · simp [h1]

theorem slot_match_two (ro : ROMem) (eB eA : rebinding) (hn : eA.name = eB.name)
    (sect : section_t) (symtab strtab indirect_symtab i : Nat) (r : rebinding) :
    slot_match ro [{ rebindings := [eB], rebindings_nel := 1 },
        { rebindings := [eA], rebindings_nel := 1 }] sect symtab strtab indirect_symtab i
        = some r ↔
      r = eB ∧ slot_examined ro sect symtab strtab indirect_symtab i ∧
        strcmp_at ro.byte (slot_symbol_name ro sect symtab strtab indirect_symtab i + 1) eB.name
          = 0 := by
  unfold slot_match
  rw [first_match_two ro _ eB eA hn]
  by_cases h1 : slot_examined ro sect symtab strtab indirect_symtab i
  · by_cases h2 : strcmp_at ro.byte
        (slot_symbol_name ro sect symtab strtab indirect_symtab i + 1) eB.name = 0
    · simp [h1, h2, eq_comm]
    · simp [h1, h2]
  · simp [h1]

theorem patches_one_entry (ro : ROMem) (e : rebinding) (images : List loaded_image)
    (p : Nat × rebinding)
    (hp : p ∈ all_patches ro [{ rebindings := [e], rebindings_nel := 1 }] images) :
    p.2 = e ∧ scanned_slot images p.1 := by
  refine ⟨?_, all_patches_scanned_slot _ _ _ _ hp⟩
  obtain ⟨img, _, _, _, _, _, sect, _, i, _, hm, _⟩ := (mem_all_patches _ _ _ _).mp hp
  exact ((slot_match_one ro e sect _ _ _ i p.2).mp hm).1

theorem patches_two_entry (ro : ROMem) (eB eA : rebinding) (hn : eA.name = eB.name)
    (images : List loaded_image) (p : Nat × rebinding)
    (hp : p ∈ all_patches ro [{ rebindings := [eB], rebindings_nel := 1 },
      { rebindings := [eA], rebindings_nel := 1 }] images) :
    p.2 = eB ∧ scanned_slot images p.1 ∧
      (p.1, eA) ∈ all_patches ro [{ rebindings := [eA], rebindings_nel := 1 }] images := by
  obtain ⟨img, himg, symtab, strtab, ist, ht, sect, hsect, i, hi, hm, hpi⟩ :=
    (mem_all_patches _ _ _ _).mp hp
  obtain ⟨h1, h2, h3⟩ := (slot_match_two ro eB eA hn sect _ _ _ i p.2).mp hm
  refine ⟨h1, all_patches_scanned_slot _ _ _ _ hp, ?_⟩
  refine (mem_all_patches _ _ _ _).mpr
    ⟨img, himg, symtab, strtab, ist, ht, sect, hsect, i, hi, ?_, hpi⟩
  exact (slot_match_one ro eA sect _ _ _ i eA).mpr ⟨rfl, h2, by rw [hn]; exact h3⟩

theorem register_twice_states (ro : ROMem) (s0 : State) (eA eB : rebinding)
    (h0 : s0._rebindings_head = []) :
    (register_one ro s0 eA)._rebindings_head = [{ rebindings := [eA], rebindings_nel := 1 }] ∧
    (register_one ro s0 eA).images = s0.images ∧
    (register_one ro s0 eA).world =
      run_patches (all_patches ro [{ rebindings := [eA], rebindings_nel := 1 }] s0.images)
        s0.world ∧
    (register_one ro (register_one ro s0 eA) eB)._rebindings_head =
      [{ rebindings := [eB], rebindings_nel := 1 }, { rebindings := [eA], rebindings_nel := 1 }] ∧
    (register_one ro (register_one ro s0 eA) eB).world =
      run_patches (all_patches ro [{ rebindings := [eB], rebindings_nel := 1 },
        { rebindings := [eA], rebindings_nel := 1 }] s0.images) (register_one ro s0 eA).world := by
  have h1 : (register_one ro s0 eA)._rebindings_head =
      [{ rebindings := [eA], rebindings_nel := 1 }] := by
    rw [register_one_eq, h0]
  have h2 : (register_one ro s0 eA).images = s0.images := by
    rw [register_one_eq]
  refine ⟨h1, h2, ?_, ?_, ?_⟩
  · rw [register_one_eq, h0]
  · rw [register_one_eq ro (register_one ro s0 eA), h1]
  · rw [register_one_eq ro (register_one ro s0 eA), h1, h2]

/-! ## C3: scenario 'register twice' -/

/-- C3: start with an empty global registry and any loaded images.  Register
`{nm, R1, out1}` (the first registration subscribes and the images are patched),
then register `{nm, R2, out2}` (the images are rescanned with the two-node
registry), where `out2` is a different location from `out1` and neither is the
address of a slot of a scanned section.  Then the registry has the two nodes,
newest first; every examined slot of every usable image whose name without its
first character is `nm` holds `R2`; the location `out1` holds exactly the value
it held after the first registration; and no capture store of the second
registration goes to `out1`. -/
theorem register_twice (ro : ROMem) (s0 : State) (nm : List Nat) (R1 R2 out1 out2 : Nat)
    (h0 : s0._rebindings_head = []) (hd : out2 ≠ out1)
    (ho1 : ¬ scanned_slot s0.images out1) (ho2 : ¬ scanned_slot s0.images out2) :
    (register_one ro
        (register_one ro s0 { name := nm, replacement := R1, replaced := out1 })
        { name := nm, replacement := R2, replaced := out2 })._rebindings_head =
      [{ rebindings := [{ name := nm, replacement := R2, replaced := out2 }],
         rebindings_nel := 1 },
       { rebindings := [{ name := nm, replacement := R1, replaced := out1 }],
         rebindings_nel := 1 }] ∧
    (∀ img ∈ s0.images, ∀ symtab strtab indirect_symtab,
      image_tables img.header img.slide = some (symtab, strtab, indirect_symtab) →
      ∀ sect ∈ scanned_sections img.header, ∀ i, i < sect.size / sizeof_ptr →
        slot_examined ro sect symtab strtab indirect_symtab i →
        strcmp_at ro.byte (slot_symbol_name ro sect symtab strtab indirect_symtab i + 1) nm = 0 →
        (register_one ro
          (register_one ro s0 { name := nm, replacement := R1, replaced := out1 })
          { name := nm, replacement := R2, replaced := out2 }).world.mem
            (slot_addr sect img.slide i) = R2) ∧
    (register_one ro
        (register_one ro s0 { name := nm, replacement := R1, replaced := out1 })
        { name := nm, replacement := R2, replaced := out2 }).world.mem out1 =
      (register_one ro s0 { name := nm, replacement := R1, replaced := out1 }).world.mem out1 ∧
    ∃ new,
      (register_one ro
        (register_one ro s0 { name := nm, replacement := R1, replaced := out1 })
        { name := nm, replacement := R2, replaced := out2 }).world.captured =
        new ++ (register_one ro s0
          { name := nm, replacement := R1, replaced := out1 }).world.captured ∧
      ∀ c ∈ new, c.out ≠ out1 := by
  obtain ⟨_, _, _, hh2, hw2⟩ := register_twice_states ro s0
    { name := nm, replacement := R1, replaced := out1 }
    { name := nm, replacement := R2, replaced := out2 } h0
  rw [hw2]
  have hent := patches_two_entry ro { name := nm, replacement := R2, replaced := out2 }
    { name := nm, replacement := R1, replaced := out1 } rfl s0.images
  refine ⟨hh2, ?_, ?_, ?_⟩
  · intro img himg symtab strtab ist ht sect hsect i hi hex hname
    apply run_uniform_mem (scanned_slot s0.images) R2
    · intro p hp
      obtain ⟨h1, _, _⟩ := hent p hp
      rw [h1]
      exact ⟨rfl, Or.inr ho2⟩
    · exact ⟨img, himg, sect, hsect, i, hi, rfl⟩
    · right
      refine ⟨(slot_addr sect img.slide i, { name := nm, replacement := R2, replaced := out2 }),
        ?_, rfl⟩
      refine (mem_all_patches _ _ _ _).mpr
        ⟨img, himg, symtab, strtab, ist, ht, sect, hsect, i, hi, ?_, rfl⟩
      exact (slot_match_two ro { name := nm, replacement := R2, replaced := out2 }
        { name := nm, replacement := R1, replaced := out1 } rfl sect _ _ _ i _).mpr
        ⟨rfl, hex, hname⟩
  · apply run_patches_mem_other
    intro p hp
    obtain ⟨h1, h2, _⟩ := hent p hp
    refine ⟨fun hh => ho1 (hh ▸ h2), ?_⟩
    rw [h1]
    exact Or.inr hd
  · obtain ⟨new, hnew, hall⟩ := run_patches_captured_sub
      (all_patches ro
        [rebindings_entry.mk [{ name := nm, replacement := R2, replaced := out2 }] 1,
          rebindings_entry.mk [{ name := nm, replacement := R1, replaced := out1 }] 1]
        s0.images)
      (register_one ro s0 { name := nm, replacement := R1, replaced := out1 }).world
    refine ⟨new, hnew, fun c hc => ?_⟩
    obtain ⟨p, hp, _, hout, _⟩ := hall c hc
    obtain ⟨h1, _, _⟩ := hent p hp
    rw [hout, h1]
    exact hd

/-- The instance of `register_twice` on the example image: `m -> 9001`
capturing into 500, then `m -> 9002` capturing into 600. -/
theorem register_twice_witness :
    (register_one Example.ro
        (register_one Example.ro Example.s0
          { name := Example.name_m, replacement := 9001, replaced := 500 })
        { name := Example.name_m, replacement := 9002, replaced := 600 }).world.mem 500 =
      (register_one Example.ro Example.s0
        { name := Example.name_m, replacement := 9001, replaced := 500 }).world.mem 500 :=
  (register_twice Example.ro Example.s0 Example.name_m 9001 9002 500 600 rfl (by decide)
    (by decide) (by decide)).2.2.1

/-! ## C2: what a capture output receives -/

/-- C2 as stated fails: on the example image the slot of `_m` holds 7000
before any registration; after registering `m -> 9001` capturing into 500 the
slot holds 9001 and location 500 holds 7000; after then registering `m -> 9002`
capturing into 600, the value written to 600 is 9001, the first replacement,
not the original 7000. -/
theorem original_capture_fails :
    Example.s0.world.mem 1000 = 7000 ∧
    Example.s1.world.mem 1000 = 9001 ∧
    Example.s1.world.mem 500 = 7000 ∧
    Example.s2.world.captured =
      [{ slot := 1000, out := 600, value := 9001 }, { slot := 1000, out := 500, value := 7000 }] ∧
    Example.s2.world.mem 600 = 9001 ∧
    Example.s2.world.mem 1000 = 9002 := by
  decide

/-- C2 (amended): a capture store copies what the slot holds at the moment it
is patched.  Start with an empty global registry and any loaded images,
register `{nm, R1, out1}` and then `{nm, R2, out2}` with `R2` different from
`R1`, `out2` not NULL, and neither capture output the address of a scanned
slot.  Every capture store of the first registration goes to `out1` and writes
the value its slot held before any registration ran.  Every capture store of
the second registration goes to `out2` and writes `R1`, the replacement the
first registration installed; and when some examined slot of a usable image is
named `nm`, the location `out2` holds `R1` when the second call returns. -/
theorem capture_takes_current_value (ro : ROMem) (s0 : State) (nm : List Nat)
    (R1 R2 out1 out2 : Nat) (h0 : s0._rebindings_head = []) (hR : R1 ≠ R2) (h2 : out2 ≠ 0)
    (ho1 : out1 = 0 ∨ ¬ scanned_slot s0.images out1) (ho2 : ¬ scanned_slot s0.images out2) :
    (∃ new1,
      (register_one ro s0 { name := nm, replacement := R1, replaced := out1 }).world.captured =
        new1 ++ s0.world.captured ∧
      ∀ c ∈ new1, c.out = out1 ∧ c.value = s0.world.mem c.slot) ∧
    (∃ new2,
      (register_one ro
        (register_one ro s0 { name := nm, replacement := R1, replaced := out1 })
        { name := nm, replacement := R2, replaced := out2 }).world.captured =
        new2 ++ (register_one ro s0
          { name := nm, replacement := R1, replaced := out1 }).world.captured ∧
      ∀ c ∈ new2, c.out = out2 ∧ c.value = R1) ∧
    ((∃ img ∈ s0.images, ∃ symtab strtab indirect_symtab,
        image_tables img.header img.slide = some (symtab, strtab, indirect_symtab) ∧
        ∃ sect ∈ scanned_sections img.header, ∃ i, i < sect.size / sizeof_ptr ∧
          slot_examined ro sect symtab strtab indirect_symtab i ∧
          strcmp_at ro.byte (slot_symbol_name ro sect symtab strtab indirect_symtab i + 1) nm
            = 0) →
      (register_one ro
        (register_one ro s0 { name := nm, replacement := R1, replaced := out1 })
        { name := nm, replacement := R2, replaced := out2 }).world.mem out2 = R1) := by
  obtain ⟨_, _, hw1, _, hw2⟩ := register_twice_states ro s0
    { name := nm, replacement := R1, replaced := out1 }
    { name := nm, replacement := R2, replaced := out2 } h0
  have hent1 := patches_one_entry ro { name := nm, replacement := R1, replaced := out1 }
    s0.images
  have hent2 := patches_two_entry ro { name := nm, replacement := R2, replaced := out2 }
    { name := nm, replacement := R1, replaced := out1 } rfl s0.images
  have hs1 : ∀ p ∈ all_patches ro
      [rebindings_entry.mk [{ name := nm, replacement := R2, replaced := out2 }] 1,
        rebindings_entry.mk [{ name := nm, replacement := R1, replaced := out1 }] 1] s0.images,
      (register_one ro s0 { name := nm, replacement := R1, replaced := out1 }).world.mem p.1
        = R1 := by
    intro p hp
    obtain ⟨_, hS, hmem⟩ := hent2 p hp
    rw [hw1]
    apply run_uniform_mem (scanned_slot s0.images) R1 _ _ _ p.1 hS (Or.inr ⟨_, hmem, rfl⟩)
    intro q hq
    rw [(hent1 q hq).1]
    exact ⟨rfl, ho1⟩
  refine ⟨?_, ?_, ?_⟩
  · rw [hw1]
    obtain ⟨new, hnew, hall⟩ := run_uniform_captured (scanned_slot s0.images)
      { name := nm, replacement := R1, replaced := out1 } s0.world.mem ho1 _ s0.world
      (fun p hp => hent1 p hp) (fun a _ => Or.inl rfl)
    exact ⟨new, hnew, fun c hc => ⟨(hall c hc).1, (hall c hc).2.1⟩⟩
  · rw [hw2]
    obtain ⟨new, hnew, hall⟩ := run_uniform_captured (scanned_slot s0.images)
      { name := nm, replacement := R2, replaced := out2 }
      (register_one ro s0 { name := nm, replacement := R1, replaced := out1 }).world.mem
      (Or.inr ho2) _
      (register_one ro s0 { name := nm, replacement := R1, replaced := out1 }).world
      (fun p hp => ⟨(hent2 p hp).1, (hent2 p hp).2.1⟩) (fun a _ => Or.inl rfl)
    refine ⟨new, hnew, fun c hc => ?_⟩
    obtain ⟨h3, h4, p, hp, h5⟩ := hall c hc
    exact ⟨h3, by rw [h4, h5]; exact hs1 p hp⟩
  · rintro ⟨img, himg, symtab, strtab, ist, ht, sect, hsect, i, hi, hex, hname⟩
    rw [hw2]
    have hp : (slot_addr sect img.slide i,
        ({ name := nm, replacement := R2, replaced := out2 } : rebinding)) ∈ all_patches ro
        [rebindings_entry.mk [{ name := nm, replacement := R2, replaced := out2 }] 1,
          rebindings_entry.mk [{ name := nm, replacement := R1, replaced := out1 }] 1]
        s0.images := by
      refine (mem_all_patches _ _ _ _).mpr
        ⟨img, himg, symtab, strtab, ist, ht, sect, hsect, i, hi, ?_, rfl⟩
      exact (slot_match_two ro { name := nm, replacement := R2, replaced := out2 }
        { name := nm, replacement := R1, replaced := out1 } rfl sect _ _ _ i _).mpr
        ⟨rfl, hex, hname⟩
    exact run_uniform_out (scanned_slot s0.images)
      { name := nm, replacement := R2, replaced := out2 } R1 h2 ho2 hR _ _
      (fun p hp => ⟨(hent2 p hp).1, (hent2 p hp).2.1⟩)
      (fun p hp => Or.inl (hs1 p hp)) (Or.inr ⟨_, hp, hs1 _ hp⟩)

/-- The instance of `capture_takes_current_value` on the example image:
`m -> 9001` capturing into 500, then `m -> 9002` capturing into 600; location
600 receives 9001. -/
theorem capture_takes_current_value_witness :
    (register_one Example.ro
      (register_one Example.ro Example.s0
        { name := Example.name_m, replacement := 9001, replaced := 500 })
      { name := Example.name_m, replacement := 9002, replaced := 600 }).world.mem 600 = 9001 :=
  (capture_takes_current_value Example.ro Example.s0 Example.name_m 9001 9002 500 600 rfl
    (by decide) (by decide) (Or.inr (by decide)) (by decide)).2.2
    ⟨{ header := Example.header, slide := 0 }, List.mem_singleton.mpr rfl, 3000, 4000, 2000,
      by decide, Example.sect, by decide, 0, by decide, by decide, by decide⟩

/-! ## C10: retroactive coverage -/

theorem foldl_worlds_eq (ro : ROMem) (rebindings : List rebindings_entry)
    (images : List loaded_image) (w : World) :
    images.foldl (fun w img => rebind_symbols_for_image ro rebindings img.header img.slide w) w =
      run_patches (all_patches ro rebindings images) w := by
  unfold all_patches
  exact run_patches_flatMap _ _
    (fun w img => rebind_symbols_for_image_eq ro rebindings img.header img.slide w) images w

/-- C10 as stated fails in its last part: in the example process with the
registry `m -> 9001` already registered (the global registry is non-empty), the
call that registers `f -> 9100` with capture output 1000 succeeds and rescans
the image; slot 0 (address 1000, name `_m`) is examined and its first match in
the updated registry is the entry for `m`, yet when the call returns the slot
holds 7008, the old value of the slot of `_f`, not 9001. -/
theorem retroactive_coverage_fails_on_alias :
    Example.s_old._rebindings_head ≠ [] ∧
    (rebind_symbols Example.ro true true Example.set_f_alias 1 Example.s_old).1 = 0 ∧
    image_tables Example.header 0 = some (3000, 4000, 2000) ∧
    Example.sect ∈ scanned_sections Example.header ∧
    slot_match Example.ro
      (rebind_symbols Example.ro true true Example.set_f_alias 1 Example.s_old).2._rebindings_head
      Example.sect 3000 4000 2000 0
      = some { name := Example.name_m, replacement := 9001, replaced := 0 } ∧
    slot_addr Example.sect 0 0 = 1000 ∧
    (rebind_symbols Example.ro true true Example.set_f_alias 1 Example.s_old).2.world.mem 1000
      = 7008 := by
  decide

/-- C10 (amended): every successful `rebind_symbols` call made when the global
registry is already non-empty returns 0, makes no new loader subscription,
prepends the submitted set, and runs `rebind_symbols_for_image` with the updated
registry on every image of the loader's table, in index order, with that
image's header and slide.  When the slots this rescan patches are pairwise
distinct addresses and no capture output of a matching entry is the address of
one of them, every examined slot of every usable image that has a match holds
the replacement of its first match when the call returns. -/
theorem retroactive_coverage (ro : ROMem) (rebindings : List rebinding) (nel : Nat) (s : State)
    (hne : s._rebindings_head ≠ []) :
    (rebind_symbols ro true true rebindings nel s).1 = 0 ∧
    (rebind_symbols ro true true rebindings nel s).2._rebindings_head =
      { rebindings := rebindings.take nel, rebindings_nel := nel } :: s._rebindings_head ∧
    (rebind_symbols ro true true rebindings nel s).2.add_image_calls = s.add_image_calls ∧
    (rebind_symbols ro true true rebindings nel s).2.world =
      s.images.foldl (fun w img => rebind_symbols_for_image ro
        ({ rebindings := rebindings.take nel, rebindings_nel := nel } :: s._rebindings_head)
        img.header img.slide w) s.world ∧
    (separated (all_patches ro
        ({ rebindings := rebindings.take nel, rebindings_nel := nel } :: s._rebindings_head)
        s.images) →
      ∀ img ∈ s.images, ∀ symtab strtab indirect_symtab,
        image_tables img.header img.slide = some (symtab, strtab, indirect_symtab) →
        ∀ sect ∈ scanned_sections img.header, ∀ i, i < sect.size / sizeof_ptr →
          ∀ r, slot_match ro
              ({ rebindings := rebindings.take nel, rebindings_nel := nel } :: s._rebindings_head)
              sect symtab strtab indirect_symtab i = some r →
            (rebind_symbols ro true true rebindings nel s).2.world.mem
              (slot_addr sect img.slide i) = r.replacement) := by
  rw [rebind_symbols_success, foldl_worlds_eq]
  refine ⟨rfl, rfl, by simp [hne], rfl, ?_⟩
  intro hsep img himg symtab strtab ist ht sect hsect i hi r hm
  exact run_patches_mem_slot _ s.world hsep (slot_addr sect img.slide i, r)
    ((mem_all_patches _ _ _ _).mpr ⟨img, himg, symtab, strtab, ist, ht, sect, hsect, i, hi, hm,
      rfl⟩)

/-- The instance of `retroactive_coverage` on the example process: with
`m -> 9001` registered, registering `m -> 9002` rescans the image and its slot
of `_m` holds 9002 when the call returns. -/
theorem retroactive_coverage_witness :
    (rebind_symbols Example.ro true true Example.set_new 1 Example.s_old).2.world.mem
      (slot_addr Example.sect 0 0) = 9002 :=
  (retroactive_coverage Example.ro Example.set_new 1 Example.s_old (by decide)).2.2.2.2
    (by
      have h : all_patches Example.ro
          ({ rebindings := Example.set_new.take 1, rebindings_nel := 1 } ::
            Example.s_old._rebindings_head) Example.s_old.images =
          [(1000, { name := Example.name_m, replacement := 9002, replaced := 0 })] := by
        decide
      rw [h]
      exact ⟨List.pairwise_singleton _ _, by simp⟩)
    { header := Example.header, slide := 0 } (List.mem_singleton.mpr rfl) 3000 4000 2000
    (by decide) Example.sect (by decide) 0 (by decide)
    { name := Example.name_m, replacement := 9002, replaced := 0 } (by decide)

/-! ## C20: the one-off entry point when allocation fails -/

theorem section_patches_nil (ro : ROMem) (sect : section_t) (slide : Int)
    (symtab strtab indirect_symtab : Nat) :
    section_patches ro [] sect slide symtab strtab indirect_symtab = [] := by
  unfold section_patches
  rw [List.filterMap_eq_nil_iff]
  intro i _
  simp [slot_match, first_match, search_order]

theorem image_patches_nil (ro : ROMem) (header : mach_header) (slide : Int) :
    image_patches ro [] header slide = [] := by
  unfold image_patches
  split
  · simp [section_patches_nil]
  · rfl

/-- C20: when `prepend_rebindings` fails inside `rebind_symbols_image` the
private registry stays empty, the scan runs with it, the whole state (every
slot, every capture output, the record of capture stores) is unchanged and
`rebind_symbols_image` returns the negative status of `prepend_rebindings`;
and `rebind_symbols_for_image` with an empty registry changes nothing, for
every image and slide. -/
theorem one_off_allocation_failure (ro : ROMem) (malloc_entry malloc_rebindings : Bool)
    (header : mach_header) (slide : Int) (rebindings : List rebinding) (nel : Nat) (s : State)
    (h : malloc_entry = false ∨ malloc_rebindings = false) :
    (prepend_rebindings malloc_entry malloc_rebindings [] rebindings nel).2 = [] ∧
    (rebind_symbols_image ro malloc_entry malloc_rebindings header slide rebindings nel s).1 =
      (prepend_rebindings malloc_entry malloc_rebindings [] rebindings nel).1 ∧
    (rebind_symbols_image ro malloc_entry malloc_rebindings header slide rebindings nel s).1
      < 0 ∧
    (rebind_symbols_image ro malloc_entry malloc_rebindings header slide rebindings nel s).2
      = s ∧
    ∀ (header2 : mach_header) (slide2 : Int) (w : World),
      rebind_symbols_for_image ro [] header2 slide2 w = w := by
  have hempty : ∀ (header2 : mach_header) (slide2 : Int) (w : World),
      rebind_symbols_for_image ro [] header2 slide2 w = w := by
    intro header2 slide2 w
    rw [rebind_symbols_for_image_eq, image_patches_nil, run_patches_nil]
  have hp : prepend_rebindings malloc_entry malloc_rebindings [] rebindings nel = (-1, []) := by
    rcases h with h | h
    · subst h; simp [prepend_rebindings]
    · subst h; cases malloc_entry <;> simp [prepend_rebindings]
  refine ⟨by rw [hp], rfl, ?_, ?_, hempty⟩
  · simp [rebind_symbols_image, hp]
  · simp [rebind_symbols_image, hp, hempty]

/-- The instance of `one_off_allocation_failure` where the first allocation
fails, on the example image and state. -/
theorem one_off_allocation_failure_witness :
    (rebind_symbols_image Example.ro false true Example.header 0 Example.set_new 1
      Example.s0).2 = Example.s0 :=
  (one_off_allocation_failure Example.ro false true Example.header 0 Example.set_new 1
    Example.s0 (Or.inl rfl)).2.2.2.1

/-! ## C12: images without pointer sections -/

theorem scanned_sections_nil (header : mach_header) (h : no_pointer_sections header) :
    scanned_sections header = [] := by
  unfold scanned_sections
  rw [List.flatMap_eq_nil_iff]
  intro c hc
  rw [List.mem_filter] at hc
  rw [List.filter_eq_nil_iff]
  intro sect hsect
  simpa using h c hc.1 (by simpa using hc.2) sect hsect

theorem image_patches_no_pointer_sections (ro : ROMem) (rebindings : List rebindings_entry)
    (header : mach_header) (slide : Int) (h : no_pointer_sections header) :
    image_patches ro rebindings header slide = [] := by
  unfold image_patches
  split
  · rw [scanned_sections_nil header h]; rfl
  · rfl

/-- C12: for every image none of whose `__DATA` and `__DATA_CONST` segments
holds a section of lazy or non-lazy symbol pointers, and every registry,
`rebind_symbols_for_image` leaves the whole memory (the image's and every
capture output) and the record of capture stores unchanged; the scan yields no
status of its own, so `rebind_symbols_image` on such an image returns the
status of its registration step, 0 when both allocations succeed, and
`rebind_symbols` over such images returns 0 with memory unchanged. -/
theorem no_pointer_sections_noop (ro : ROMem) (rebindings : List rebindings_entry)
    (header : mach_header) (slide : Int) (w : World) (s : State) (h : no_pointer_sections header)
    (hs : ∀ img ∈ s.images, no_pointer_sections img.header) :
    rebind_symbols_for_image ro rebindings header slide w = w ∧
    (∀ me mr rb nel,
      (rebind_symbols_image ro me mr header slide rb nel s).1 =
        (prepend_rebindings me mr [] rb nel).1 ∧
      (rebind_symbols_image ro me mr header slide rb nel s).2.world = s.world) ∧
    (∀ rb nel, (rebind_symbols_image ro true true header slide rb nel s).1 = 0) ∧
    ∀ rb nel, (rebind_symbols ro true true rb nel s).1 = 0 ∧
      (rebind_symbols ro true true rb nel s).2.world = s.world := by
  have hnoop : ∀ regs w, rebind_symbols_for_image ro regs header slide w = w := by
    intro regs w
    rw [rebind_symbols_for_image_eq, image_patches_no_pointer_sections ro regs header slide h,
      run_patches_nil]
  refine ⟨hnoop rebindings w, ?_, ?_, ?_⟩
  · intro me mr rb nel
    exact ⟨rfl, by simp [rebind_symbols_image, hnoop]⟩
  · intro rb nel
    rfl
  · intro rb nel
    rw [rebind_symbols_success]
    refine ⟨rfl, ?_⟩
    have hall : all_patches ro
        ({ rebindings := rb.take nel, rebindings_nel := nel } :: s._rebindings_head) s.images
        = [] := by
      unfold all_patches
      rw [List.flatMap_eq_nil_iff]
      intro img himg
      exact image_patches_no_pointer_sections ro _ img.header img.slide (hs img himg)
    simp only [hall, run_patches_nil]

/-- The instance of `no_pointer_sections_noop` on the example image whose
`__DATA` segment has only a regular section. -/
theorem no_pointer_sections_noop_witness :
    rebind_symbols_for_image Example.ro Example.regs1 Example.header_plain 0 Example.w0
      = Example.w0 :=
  (no_pointer_sections_noop Example.ro Example.regs1 Example.header_plain 0 Example.w0
    Example.s_plain (by decide) (by decide)).1

/-! ## C11: images the scan skips -/

theorem last_cmd_concat (p : load_command → Bool) (l : List load_command) (x : load_command) :
    last_cmd p (l ++ [x]) = if p x then some x else last_cmd p l := by
  unfold last_cmd
  by_cases h : p x = true
  · simp [List.filter_append, h, List.getLast?_concat]
  · simp [List.filter_append, h]

theorem last_cmd_eq_none (p : load_command → Bool) (l : List load_command) :
    last_cmd p l = none ↔ ∀ c ∈ l, p c = false := by
  unfold last_cmd
  rw [List.getLast?_eq_none_iff, List.filter_eq_nil_iff]
  simp

theorem locate_fold (cmds : List load_command) :
    (cmds.foldl locate_step
        { linkedit_segment := none, symtab_cmd := none, dysymtab_cmd := none }).linkedit_segment
      = last_cmd is_linkedit cmds ∧
    (cmds.foldl locate_step
        { linkedit_segment := none, symtab_cmd := none, dysymtab_cmd := none }).symtab_cmd
      = last_cmd is_symtab cmds ∧
    (cmds.foldl locate_step
        { linkedit_segment := none, symtab_cmd := none, dysymtab_cmd := none }).dysymtab_cmd
      = last_cmd is_dysymtab cmds := by
  induction cmds using List.reverseRecOn with
  | nil => exact ⟨rfl, rfl, rfl⟩
  | append_singleton l x ih =>
    obtain ⟨ih1, ih2, ih3⟩ := ih
    rw [List.foldl_append, List.foldl_cons, List.foldl_nil]
    simp only [last_cmd_concat]
    have hne1 : LC_SEGMENT_ARCH_DEPENDENT ≠ LC_SYMTAB := by decide
    have hne2 : LC_SEGMENT_ARCH_DEPENDENT ≠ LC_DYSYMTAB := by decide
    have hne3 : LC_SYMTAB ≠ LC_DYSYMTAB := by decide
    generalize List.foldl locate_step
      { linkedit_segment := none, symtab_cmd := none, dysymtab_cmd := none } l = acc
      at ih1 ih2 ih3 ⊢
    rw [← ih1, ← ih2, ← ih3]
    unfold locate_step is_linkedit is_symtab is_dysymtab
    by_cases h1 : x.cmd = LC_SEGMENT_ARCH_DEPENDENT
    · by_cases h2 : strcmp x.segname SEG_LINKEDIT = 0
      · simp [h1, h2, hne1, hne2]
      · simp [h1, h2, hne1, hne2]
    · by_cases h3 : x.cmd = LC_SYMTAB
      · simp [h3, hne1.symm, hne3]
      · by_cases h4 : x.cmd = LC_DYSYMTAB
        · simp [h4, hne2.symm, hne3.symm]
        · simp [h1, h3, h4]

theorem image_tables_eq (header : mach_header) (slide : Int) :
    image_tables header slide =
      if header.dladdr = 0 then none
      else
        match last_cmd is_symtab header.cmds, last_cmd is_dysymtab header.cmds,
          last_cmd is_linkedit header.cmds with
        | some symtab_cmd, some dysymtab_cmd, some linkedit_segment =>
          if dysymtab_cmd.nindirectsyms = 0 then none
          else
            some (uadd (usub (uadd (to_uintptr slide) linkedit_segment.vmaddr)
                linkedit_segment.fileoff) symtab_cmd.symoff,
              uadd (usub (uadd (to_uintptr slide) linkedit_segment.vmaddr)
                linkedit_segment.fileoff) symtab_cmd.stroff,
              uadd (usub (uadd (to_uintptr slide) linkedit_segment.vmaddr)
                linkedit_segment.fileoff) dysymtab_cmd.indirectsymoff)
        | _, _, _ => none := by
  obtain ⟨h1, h2, h3⟩ := locate_fold header.cmds
  unfold image_tables
  simp only [h1, h2, h3]

theorem rebind_symbols_for_image_none (ro : ROMem) (rebindings : List rebindings_entry)
    (header : mach_header) (slide : Int) (w : World) (h : image_tables header slide = none) :
    rebind_symbols_for_image ro rebindings header slide w = w := by
  rw [rebind_symbols_for_image_eq]
  unfold image_patches
  rw [h]
  rfl

theorem rebind_symbols_for_image_some (ro : ROMem) (rebindings : List rebindings_entry)
    (header : mach_header) (slide : Int) (w : World) (symtab strtab indirect_symtab : Nat)
    (h : image_tables header slide = some (symtab, strtab, indirect_symtab)) :
    rebind_symbols_for_image ro rebindings header slide w =
      header.cmds.foldl (segment_step ro rebindings slide symtab strtab indirect_symtab) w := by
  rw [rebind_symbols_for_image_eq, segments_fold_eq]
  unfold image_patches scanned_sections
  rw [h]

/-- C11: for every image for which the loader's `dladdr` fails, or whose load
commands have no segment command named `__LINKEDIT`, or no `LC_SYMTAB` command,
or no `LC_DYSYMTAB` command, or whose `LC_DYSYMTAB` command (the last one, which
is the one the scan keeps) declares `nindirectsyms = 0`,
`rebind_symbols_for_image` returns memory and the record of capture stores
exactly as it received them, whatever the registry and whatever sections the
image has. -/
theorem unusable_image_noop (ro : ROMem) (rebindings : List rebindings_entry)
    (header : mach_header) (slide : Int) (w : World)
    (h : header.dladdr = 0 ∨
      (∀ c ∈ header.cmds,
        ¬ (c.cmd = LC_SEGMENT_ARCH_DEPENDENT ∧ strcmp c.segname SEG_LINKEDIT = 0)) ∨
      (∀ c ∈ header.cmds, c.cmd ≠ LC_SYMTAB) ∨
      (∀ c ∈ header.cmds, c.cmd ≠ LC_DYSYMTAB) ∨
      (∃ d, last_cmd is_dysymtab header.cmds = some d ∧ d.nindirectsyms = 0)) :
    rebind_symbols_for_image ro rebindings header slide w = w := by
  apply rebind_symbols_for_image_none
  rw [image_tables_eq]
  rcases h with h | h | h | h | ⟨d, hd, hd0⟩
  · rw [if_pos h]
  · have hl : last_cmd is_linkedit header.cmds = none := by
      rw [last_cmd_eq_none]
      intro c hc
      simpa [is_linkedit] using h c hc
    split
    · rfl
    · rw [hl]
      cases last_cmd is_symtab header.cmds <;> cases last_cmd is_dysymtab header.cmds <;> rfl
  · have hl : last_cmd is_symtab header.cmds = none := by
      rw [last_cmd_eq_none]
      intro c hc
      simpa [is_symtab] using h c hc
    split
    · rfl
    · rw [hl]
  · have hl : last_cmd is_dysymtab header.cmds = none := by
      rw [last_cmd_eq_none]
      intro c hc
      simpa [is_dysymtab] using h c hc
    split
    · rfl
    · rw [hl]
      cases last_cmd is_symtab header.cmds <;> rfl
  · split
    · rfl
    · rw [hd]
      cases last_cmd is_symtab header.cmds with
      | none => rfl
      | some sc =>
        cases last_cmd is_linkedit header.cmds with
        | none => rfl
        | some lc => simp [hd0]

/-- The instance of `unusable_image_noop` on the example image whose dynamic
symbol table declares no indirect symbols. -/
theorem unusable_image_noop_witness :
    rebind_symbols_for_image Example.ro Example.regs1 Example.header_no_indirect 0 Example.w0
      = Example.w0 :=
  unusable_image_noop Example.ro Example.regs1 Example.header_no_indirect 0 Example.w0
    (Or.inr (Or.inr (Or.inr (Or.inr
      ⟨{ Example.blank LC_DYSYMTAB with indirectsymoff := 2000, nindirectsyms := 0 },
        by decide, rfl⟩))))

/-! ## C16: the link-edit table addresses -/

theorem table_address_eq (slide : Int) (vmaddr fileoff off : Nat) :
    uadd (usub (uadd (to_uintptr slide) vmaddr) fileoff) off =
      spec_table_address slide vmaddr fileoff off := by
  unfold uadd usub to_uintptr spec_table_address UINTPTR_MOD
  omega

/-- C16: for every image that passes the prerequisites (the loader describes
the header, and `L`, `S`, `D` are the `__LINKEDIT` segment command, the
`LC_SYMTAB` command and the `LC_DYSYMTAB` command the first loop keeps, with
`D.nindirectsyms` not 0), the scan runs its second loop, and through it the
patcher, with symtab, strtab and indirect_symtab equal to the mathematical
values `slide + L.vmaddr - L.fileoff + symoff`, `... + stroff` and
`... + indirectsymoff` reduced modulo `2^64`, for every (also negative) slide
and whether or not an intermediate sum wraps. -/
theorem linkedit_addresses (ro : ROMem) (rebindings : List rebindings_entry)
    (header : mach_header) (slide : Int) (w : World) (L S D : load_command)
    (h0 : header.dladdr ≠ 0)
    (hL : last_cmd is_linkedit header.cmds = some L)
    (hS : last_cmd is_symtab header.cmds = some S)
    (hD : last_cmd is_dysymtab header.cmds = some D)
    (hn : D.nindirectsyms ≠ 0) :
    image_tables header slide =
      some (spec_table_address slide L.vmaddr L.fileoff S.symoff,
        spec_table_address slide L.vmaddr L.fileoff S.stroff,
        spec_table_address slide L.vmaddr L.fileoff D.indirectsymoff) ∧
    rebind_symbols_for_image ro rebindings header slide w =
      header.cmds.foldl (segment_step ro rebindings slide
        (spec_table_address slide L.vmaddr L.fileoff S.symoff)
        (spec_table_address slide L.vmaddr L.fileoff S.stroff)
        (spec_table_address slide L.vmaddr L.fileoff D.indirectsymoff)) w := by
  have ht : image_tables header slide =
      some (spec_table_address slide L.vmaddr L.fileoff S.symoff,
        spec_table_address slide L.vmaddr L.fileoff S.stroff,
        spec_table_address slide L.vmaddr L.fileoff D.indirectsymoff) := by
    rw [image_tables_eq, if_neg h0, hL, hS, hD]
    simp only [hn, if_false, table_address_eq]
  exact ⟨ht, rebind_symbols_for_image_some ro rebindings header slide w _ _ _ ht⟩

/-- The instance of `linkedit_addresses` on the example image loaded with the
negative slide -4000, where `(uintptr_t)slide + vmaddr` wraps. -/
theorem linkedit_addresses_witness :
    image_tables Example.header_neg (-4000) =
      some (spec_table_address (-4000) 5000 1000 3000,
        spec_table_address (-4000) 5000 1000 4000,
        spec_table_address (-4000) 5000 1000 2000) :=
  (linkedit_addresses Example.ro Example.regs1 Example.header_neg (-4000) Example.w0
    { Example.blank LC_SEGMENT_64 with segname := SEG_LINKEDIT, vmaddr := 5000, fileoff := 1000 }
    { Example.blank LC_SYMTAB with symoff := 3000, stroff := 4000 }
    { Example.blank LC_DYSYMTAB with indirectsymoff := 2000, nindirectsyms := 4 }
    (by decide) (by decide) (by decide) (by decide) (by decide)).1

/-! ## C17: which sections the scan patches -/

theorem cstr_cons (x : Nat) (l : List Nat) :
    cstr (x :: l) = if x = 0 then [] else x :: cstr l := by
  unfold cstr
  by_cases h : x = 0
  · simp [h]
  · simp [h]

theorem strcmp_eq_zero_iff (a b : List Nat) : strcmp a b = 0 ↔ cstr a = cstr b := by
  induction a generalizing b with
  | nil =>
    cases b with
    | nil => simp [strcmp, cstr]
    | cons y b =>
      rw [cstr_cons]
      by_cases hy : y = 0
      · simp [strcmp, cstr, hy]
      · have : (y : Int) ≠ 0 := by exact_mod_cast hy
        simp [strcmp, cstr, hy]
  | cons x a ih =>
    rw [cstr_cons]
    cases b with
    | nil =>
      by_cases hx : x = 0
      · simp [strcmp, cstr, hx]
      · have : (x : Int) ≠ 0 := by exact_mod_cast hx
        simp [strcmp, cstr, hx]
    | cons y b =>
      rw [cstr_cons]
      by_cases hxy : x = y
      · subst hxy
        by_cases hx : x = 0
        · simp [strcmp, hx]
        · simp [strcmp, hx, ih]
      · have hne : (x : Int) - (y : Int) ≠ 0 := by omega
        by_cases hx : x = 0
        · by_cases hy : y = 0
          · exact absurd (hx.trans hy.symm) hxy
          · have hy2 : ¬ 0 = y := fun h => hy h.symm
            simp [strcmp, hxy, hne, hx, hy, hy2]
        · by_cases hy : y = 0
          · simp [strcmp, hxy, hne, hx, hy]
          · simp [strcmp, hxy, hne, hx, hy]

theorem foldl_flatMap_eq {α β γ : Type} (f : α → List β) (g : γ → β → γ) (l : List α) (c : γ) :
    (l.flatMap f).foldl g c = l.foldl (fun c x => (f x).foldl g c) c := by
  induction l generalizing c with
  | nil => rfl
  | cons x l ih => simp [List.flatMap_cons, List.foldl_append, ih]

theorem section_invocations_eq (sect : section_t) :
    section_invocations sect = if pointer_section sect then [sect] else [] := by
  unfold section_invocations pointer_section
  have hne : S_LAZY_SYMBOL_POINTERS ≠ S_NON_LAZY_SYMBOL_POINTERS := by decide
  by_cases h1 : sect.flags &&& SECTION_TYPE = S_LAZY_SYMBOL_POINTERS
  · simp [h1, hne]
  · by_cases h2 : sect.flags &&& SECTION_TYPE = S_NON_LAZY_SYMBOL_POINTERS
    · simp [h2, hne.symm]
    · simp [h1, h2]

theorem segment_invocations_eq (c : load_command) :
    segment_invocations c =
      if data_segment c then c.sects.filter (fun sect => decide (pointer_section sect))
      else [] := by
  have hflat : c.sects.flatMap section_invocations =
      c.sects.filter (fun sect => decide (pointer_section sect)) := by
    induction c.sects with
    | nil => rfl
    | cons x l ih =>
      rw [List.flatMap_cons, ih, section_invocations_eq, List.filter_cons]
      by_cases hp : pointer_section x
      · simp [hp]
      · simp [hp]
  unfold segment_invocations data_segment
  by_cases h1 : c.cmd = LC_SEGMENT_ARCH_DEPENDENT
  · by_cases h2 : strcmp c.segname SEG_DATA = 0
    · simp [h1, h2, hflat]
    · by_cases h3 : strcmp c.segname SEG_DATA_CONST = 0
      · simp [h1, h2, h3, hflat]
      · simp [h1, h2, h3]
  · simp [h1]

theorem section_step_invocations (ro : ROMem) (rebindings : List rebindings_entry) (slide : Int)
    (symtab strtab indirect_symtab : Nat) (w : World) (sect : section_t) :
    section_step ro rebindings slide symtab strtab indirect_symtab w sect =
      (section_invocations sect).foldl (fun w sect =>
        perform_rebinding_with_section ro rebindings sect slide symtab strtab indirect_symtab w)
        w := by
  unfold section_step section_invocations
  by_cases h1 : sect.flags &&& SECTION_TYPE = S_LAZY_SYMBOL_POINTERS
  · by_cases h2 : sect.flags &&& SECTION_TYPE = S_NON_LAZY_SYMBOL_POINTERS
    · exact absurd (h1.symm.trans h2) (by decide)
    · simp only [if_pos h1, if_neg h2]
      rfl
  · by_cases h2 : sect.flags &&& SECTION_TYPE = S_NON_LAZY_SYMBOL_POINTERS
    · simp only [if_neg h1, if_pos h2]
      rfl
    · simp only [if_neg h1, if_neg h2]
      rfl

theorem segment_step_invocations (ro : ROMem) (rebindings : List rebindings_entry) (slide : Int)
    (symtab strtab indirect_symtab : Nat) (w : World) (c : load_command) :
    segment_step ro rebindings slide symtab strtab indirect_symtab w c =
      (segment_invocations c).foldl (fun w sect =>
        perform_rebinding_with_section ro rebindings sect slide symtab strtab indirect_symtab w)
        w := by
  unfold segment_step segment_invocations
  by_cases h1 : c.cmd = LC_SEGMENT_ARCH_DEPENDENT
  · by_cases h2 : strcmp c.segname SEG_DATA ≠ 0 ∧ strcmp c.segname SEG_DATA_CONST ≠ 0
    · simp [h1, h2]
    · rw [if_pos h1, if_neg h2, if_pos h1, if_neg h2, foldl_flatMap_eq]
      apply List.foldl_ext
      intro w1 sect _
      exact section_step_invocations ro rebindings slide symtab strtab indirect_symtab w1 sect
  · simp [h1]

theorem loop_fold_invocations (ro : ROMem) (rebindings : List rebindings_entry) (slide : Int)
    (symtab strtab indirect_symtab : Nat) (cmds : List load_command) (w : World) :
    cmds.foldl (segment_step ro rebindings slide symtab strtab indirect_symtab) w =
      (loop_invocations cmds).foldl (fun w sect =>
        perform_rebinding_with_section ro rebindings sect slide symtab strtab indirect_symtab w)
        w := by
  unfold loop_invocations
  rw [foldl_flatMap_eq]
  apply List.foldl_ext
  intro w1 c _
  exact segment_step_invocations ro rebindings slide symtab strtab indirect_symtab w1 c

/-- C17: the second loop over the load commands is, in order, one call of
`perform_rebinding_with_section` for each element of `loop_invocations`, and
that list holds, command by command and section by section, each section of a
`__DATA` or `__DATA_CONST` segment whose type is lazy or non-lazy symbol
pointers exactly once and nothing else: a section is in it iff it belongs to a
segment command (`LC_SEGMENT_64`) whose name is exactly `__DATA` or exactly
`__DATA_CONST` and its `flags & SECTION_TYPE` is `S_LAZY_SYMBOL_POINTERS` or
`S_NON_LAZY_SYMBOL_POINTERS`.  For an image that passes the prerequisites this
loop is the whole effect of `rebind_symbols_for_image`, so pointer sections of
any other segment are never patched. -/
theorem scan_section_filter (ro : ROMem) (rebindings : List rebindings_entry) (slide : Int)
    (symtab strtab indirect_symtab : Nat) (cmds : List load_command) (w : World) :
    cmds.foldl (segment_step ro rebindings slide symtab strtab indirect_symtab) w =
      (loop_invocations cmds).foldl (fun w sect =>
        perform_rebinding_with_section ro rebindings sect slide symtab strtab indirect_symtab w)
        w ∧
    loop_invocations cmds = cmds.flatMap (fun c =>
      if data_segment c then c.sects.filter (fun sect => decide (pointer_section sect))
      else []) ∧
    (∀ sect, sect ∈ loop_invocations cmds ↔
      ∃ c ∈ cmds, c.cmd = LC_SEGMENT_ARCH_DEPENDENT ∧
        (cstr c.segname = SEG_DATA ∨ cstr c.segname = SEG_DATA_CONST) ∧ sect ∈ c.sects ∧
        (sect.flags &&& SECTION_TYPE = S_LAZY_SYMBOL_POINTERS ∨
          sect.flags &&& SECTION_TYPE = S_NON_LAZY_SYMBOL_POINTERS)) ∧
    ∀ header : mach_header,
      image_tables header slide = some (symtab, strtab, indirect_symtab) →
      rebind_symbols_for_image ro rebindings header slide w =
        (loop_invocations header.cmds).foldl (fun w sect =>
          perform_rebinding_with_section ro rebindings sect slide symtab strtab
            indirect_symtab w) w := by
  have hlist : ∀ l : List load_command, loop_invocations l = l.flatMap (fun c =>
      if data_segment c then c.sects.filter (fun sect => decide (pointer_section sect))
      else []) := by
    intro l
    unfold loop_invocations
    congr 1
    funext c
    exact segment_invocations_eq c
  refine ⟨loop_fold_invocations ro rebindings slide symtab strtab indirect_symtab cmds w,
    hlist cmds, ?_, ?_⟩
  · intro sect
    rw [hlist, List.mem_flatMap]
    have hd : cstr SEG_DATA = SEG_DATA := by decide
    have hdc : cstr SEG_DATA_CONST = SEG_DATA_CONST := by decide
    constructor
    · rintro ⟨c, hc, hs⟩
      by_cases hdata : data_segment c
      · rw [if_pos hdata, List.mem_filter] at hs
        refine ⟨c, hc, hdata.1, ?_, hs.1, by simpa [pointer_section] using hs.2⟩
        rcases hdata.2 with h | h
        · left; rw [← hd]; exact (strcmp_eq_zero_iff _ _).mp h
        · right; rw [← hdc]; exact (strcmp_eq_zero_iff _ _).mp h
      · rw [if_neg hdata] at hs
        cases hs
    · rintro ⟨c, hc, hcmd, hname, hs, hty⟩
      have hdata : data_segment c := by
        refine ⟨hcmd, ?_⟩
        rcases hname with h | h
        · left; exact (strcmp_eq_zero_iff _ _).mpr (by rw [h, hd])
        · right; exact (strcmp_eq_zero_iff _ _).mpr (by rw [h, hdc])
      refine ⟨c, hc, ?_⟩
      rw [if_pos hdata, List.mem_filter]
      exact ⟨hs, by simpa [pointer_section] using hty⟩
  · intro header ht
    rw [rebind_symbols_for_image_some ro rebindings header slide w _ _ _ ht]
    exact loop_fold_invocations ro rebindings slide symtab strtab indirect_symtab header.cmds w

/-- The instance of `scan_section_filter` on the example image: its scan is one
call on the pointer section of its `__DATA` segment. -/
theorem scan_section_filter_witness :
    rebind_symbols_for_image Example.ro Example.regs1 Example.header 0 Example.w0 =
      (loop_invocations Example.header.cmds).foldl (fun w sect =>
        perform_rebinding_with_section Example.ro Example.regs1 sect 0 3000 4000 2000 w)
        Example.w0 :=
  (scan_section_filter Example.ro Example.regs1 0 3000 4000 2000 Example.header.cmds
    Example.w0).2.2.2 Example.header (by decide)

/-! ## C13, C14, C15: slots the patcher leaves alone -/

theorem slot_body_skip (ro : ROMem) (rebindings : List rebindings_entry) (sect : section_t)
    (slide : Int) (symtab strtab indirect_symtab : Nat) (w : World) (i : Nat)
    (hm : slot_match ro rebindings sect symtab strtab indirect_symtab i = none) :
    slot_body ro rebindings (indirect_symtab + sizeof_uint32 * sect.reserved1)
      (uadd (to_uintptr slide) sect.addr) symtab strtab w i = w := by
  rw [slot_body_eq, hm]

theorem perform_unmatched_mem (ro : ROMem) (rebindings : List rebindings_entry)
    (sect : section_t) (slide : Int) (symtab strtab indirect_symtab : Nat) (w : World) (i : Nat)
    (hm : slot_match ro rebindings sect symtab strtab indirect_symtab i = none)
    (hna : no_capture_at rebindings (slot_addr sect slide i)) :
    (perform_rebinding_with_section ro rebindings sect slide symtab strtab indirect_symtab w).mem
      (slot_addr sect slide i) = w.mem (slot_addr sect slide i) := by
  rw [perform_rebinding_with_section_eq]
  apply run_patches_mem_other
  intro p hp
  obtain ⟨j, _, hmj, hpj⟩ := (mem_section_patches _ _ _ _ _ _ _ _).mp hp
  refine ⟨?_, hna p.2 (first_match_some _ _ _ _ (slot_match_some _ _ _ _ _ _ _ _ hmj).2).1⟩
  intro h
  rw [hpj] at h
  have hij := slot_addr_inj sect slide i j h
  subst hij
  rw [hm] at hmj
  cases hmj

theorem perform_unmatched_captured (ro : ROMem) (rebindings : List rebindings_entry)
    (sect : section_t) (slide : Int) (symtab strtab indirect_symtab : Nat) (w : World) (i : Nat)
    (hm : slot_match ro rebindings sect symtab strtab indirect_symtab i = none) :
    ∃ new, (perform_rebinding_with_section ro rebindings sect slide symtab strtab
        indirect_symtab w).captured = new ++ w.captured ∧
      ∀ c ∈ new, c.slot ≠ slot_addr sect slide i := by
  obtain ⟨new, hnew, hall⟩ := perform_captured_slot ro rebindings sect slide symtab strtab
    indirect_symtab w
  refine ⟨new, hnew, fun c hc h => ?_⟩
  obtain ⟨j, r, _, hmj, hslot, _, _⟩ := hall c hc
  have hij := slot_addr_inj sect slide i j (by rw [← h, hslot])
  subst hij
  rw [hm] at hmj
  cases hmj

theorem slot_match_not_examined (ro : ROMem) (rebindings : List rebindings_entry)
    (sect : section_t) (symtab strtab indirect_symtab i : Nat)
    (h : ¬ slot_examined ro sect symtab strtab indirect_symtab i) :
    slot_match ro rebindings sect symtab strtab indirect_symtab i = none := by
  unfold slot_match
  rw [if_neg h]

/-- C13 as stated fails: slot 2 of the four-slot example section (address 1016)
has the indirect symbol table entry `INDIRECT_SYMBOL_ABS` and holds 7016; with
the registry `f -> 9100` capturing into address 1016, after the pass it holds
7008, the old value of the slot of `_f`. -/
theorem sentinel_slot_skipped_fails_on_alias :
    2 < Example.sect4.size / sizeof_ptr ∧
    slot_symtab_index Example.ro Example.sect4 2000 2 = INDIRECT_SYMBOL_ABS ∧
    slot_addr Example.sect4 0 2 = 1016 ∧
    Example.w0.mem 1016 = 7016 ∧
    (perform_rebinding_with_section Example.ro (Example.regs_f 1016) Example.sect4 0 3000 4000
      2000 Example.w0).mem 1016 = 7008 := by
  decide

/-- C13 (amended): for every slot `i` of a section whose indirect symbol table
entry is `INDIRECT_SYMBOL_LOCAL`, `INDIRECT_SYMBOL_ABS` or their combination,
and every registry: the loop body for slot `i` returns memory and the record
of capture stores as it received them, whatever the symbol table and the
string table hold (its outcome depends on no symbol table entry); the pass
makes no capture store on account of slot `i`; and after the whole pass slot
`i` holds its old value provided no capture output of the registry is the
address of slot `i`. -/
theorem sentinel_slot_skipped (ro : ROMem) (rebindings : List rebindings_entry)
    (sect : section_t) (slide : Int) (symtab strtab indirect_symtab : Nat) (w : World) (i : Nat)
    (hi : i < sect.size / sizeof_ptr)
    (hs : slot_symtab_index ro sect indirect_symtab i = INDIRECT_SYMBOL_ABS ∨
      slot_symtab_index ro sect indirect_symtab i = INDIRECT_SYMBOL_LOCAL ∨
      slot_symtab_index ro sect indirect_symtab i =
        (INDIRECT_SYMBOL_LOCAL ||| INDIRECT_SYMBOL_ABS)) :
    i ∈ List.range (sect.size / sizeof_ptr) ∧
    (∀ (ro2 : ROMem) (w2 : World),
      slot_symtab_index ro2 sect indirect_symtab i = slot_symtab_index ro sect indirect_symtab i →
      slot_body ro2 rebindings (indirect_symtab + sizeof_uint32 * sect.reserved1)
        (uadd (to_uintptr slide) sect.addr) symtab strtab w2 i = w2) ∧
    (∃ new, (perform_rebinding_with_section ro rebindings sect slide symtab strtab
        indirect_symtab w).captured = new ++ w.captured ∧
      ∀ c ∈ new, c.slot ≠ slot_addr sect slide i) ∧
    (no_capture_at rebindings (slot_addr sect slide i) →
      (perform_rebinding_with_section ro rebindings sect slide symtab strtab
        indirect_symtab w).mem (slot_addr sect slide i) = w.mem (slot_addr sect slide i)) := by
  have hm : ∀ ro2 : ROMem,
      slot_symtab_index ro2 sect indirect_symtab i = slot_symtab_index ro sect indirect_symtab i →
      slot_match ro2 rebindings sect symtab strtab indirect_symtab i = none := by
    intro ro2 h2
    apply slot_match_not_examined
    unfold slot_examined
    rw [h2]
    exact fun h => h.1 hs
  refine ⟨List.mem_range.mpr hi, ?_, ?_, ?_⟩
  · intro ro2 w2 h2
    exact slot_body_skip ro2 rebindings sect slide symtab strtab indirect_symtab w2 i (hm ro2 h2)
  · exact perform_unmatched_captured ro rebindings sect slide symtab strtab indirect_symtab w i
      (hm ro rfl)
  · intro hna
    exact perform_unmatched_mem ro rebindings sect slide symtab strtab indirect_symtab w i
      (hm ro rfl) hna

/-- The instance of `sentinel_slot_skipped` at slot 2 of the four-slot example
section with the registry `m -> 9001` capturing into 500. -/
theorem sentinel_slot_skipped_witness :
    (perform_rebinding_with_section Example.ro Example.regs1 Example.sect4 0 3000 4000 2000
      Example.w0).mem (slot_addr Example.sect4 0 2) = Example.w0.mem (slot_addr Example.sect4 0 2) :=
  (sentinel_slot_skipped Example.ro Example.regs1 Example.sect4 0 3000 4000 2000 Example.w0 2
    (by decide) (Or.inl (by decide))).2.2.2 (by decide)

/-- C14 as stated fails: slot 3 of the four-slot example section (address 1024)
has a non-sentinel index and the one-character name `_`, and holds 7024; with
the registry `f -> 9100` capturing into address 1024, after the pass it holds
7008, the old value of the slot of `_f`. -/
theorem short_name_skipped_fails_on_alias :
    3 < Example.sect4.size / sizeof_ptr ∧
    slot_symtab_index Example.ro Example.sect4 2000 3 = 2 ∧
    strnlen2 Example.ro.byte (slot_symbol_name Example.ro Example.sect4 3000 4000 2000 3) = 1 ∧
    slot_addr Example.sect4 0 3 = 1024 ∧
    Example.w0.mem 1024 = 7024 ∧
    (perform_rebinding_with_section Example.ro (Example.regs_f 1024) Example.sect4 0 3000 4000
      2000 Example.w0).mem 1024 = 7008 := by
  decide

/-- C14 (amended): for every slot `i` of a section whose resolved name (the
string at `strtab + n_strx`) has fewer than 2 characters, and every registry
(also one with an entry whose name is the empty string): the loop body for
slot `i` returns memory and the record of capture stores as it received them;
the pass makes no capture store on account of slot `i`; and after the whole
pass slot `i` holds its old value provided no capture output of the registry
is the address of slot `i`.  The test skips exactly the names whose first or
second byte is NUL, and for a slot that is not a sentinel and whose name has 2
or more characters the loop body goes on to the registry search. -/
theorem short_name_skipped (ro : ROMem) (rebindings : List rebindings_entry)
    (sect : section_t) (slide : Int) (symtab strtab indirect_symtab : Nat) (w : World) (i : Nat)
    (hi : i < sect.size / sizeof_ptr)
    (hshort : strnlen2 ro.byte (slot_symbol_name ro sect symtab strtab indirect_symtab i) < 2) :
    i ∈ List.range (sect.size / sizeof_ptr) ∧
    (∀ w2 : World,
      slot_body ro rebindings (indirect_symtab + sizeof_uint32 * sect.reserved1)
        (uadd (to_uintptr slide) sect.addr) symtab strtab w2 i = w2) ∧
    (∃ new, (perform_rebinding_with_section ro rebindings sect slide symtab strtab
        indirect_symtab w).captured = new ++ w.captured ∧
      ∀ c ∈ new, c.slot ≠ slot_addr sect slide i) ∧
    (no_capture_at rebindings (slot_addr sect slide i) →
      (perform_rebinding_with_section ro rebindings sect slide symtab strtab
        indirect_symtab w).mem (slot_addr sect slide i) = w.mem (slot_addr sect slide i)) ∧
    (∀ p, strnlen2 ro.byte p < 2 ↔ ro.byte p = 0 ∨ ro.byte (p + 1) = 0) ∧
    ∀ (j : Nat) (w2 : World), slot_examined ro sect symtab strtab indirect_symtab j →
      slot_body ro rebindings (indirect_symtab + sizeof_uint32 * sect.reserved1)
        (uadd (to_uintptr slide) sect.addr) symtab strtab w2 j =
      search_list ro (slot_symbol_name ro sect symtab strtab indirect_symtab j + 1)
        (slot_addr sect slide j) rebindings w2 := by
  have hm : slot_match ro rebindings sect symtab strtab indirect_symtab i = none := by
    apply slot_match_not_examined
    unfold slot_examined
    exact fun h => h.2 hshort
  refine ⟨List.mem_range.mpr hi, ?_, ?_, ?_, ?_, ?_⟩
  · intro w2
    exact slot_body_skip ro rebindings sect slide symtab strtab indirect_symtab w2 i hm
  · exact perform_unmatched_captured ro rebindings sect slide symtab strtab indirect_symtab w i hm
  · intro hna
    exact perform_unmatched_mem ro rebindings sect slide symtab strtab indirect_symtab w i hm hna
  · intro p
    unfold strnlen2
    by_cases h1 : ro.byte p = 0
    · simp [h1]
    · by_cases h2 : ro.byte (p + 1) = 0
      · simp [h1, h2]
      · simp [h1, h2]
  · intro j w2 hj
    rw [slot_body_eq, search_list_eq]
    unfold slot_match
    rw [if_pos hj]

/-- The instance of `short_name_skipped` at slot 3 of the four-slot example
section (name `_`) with a registry whose entry names the empty string. -/
theorem short_name_skipped_witness :
    (perform_rebinding_with_section Example.ro
      [{ rebindings := Example.set_new_empty, rebindings_nel := 1 }] Example.sect4 0 3000 4000
      2000 Example.w0).mem (slot_addr Example.sect4 0 3) =
        Example.w0.mem (slot_addr Example.sect4 0 3) :=
  (short_name_skipped Example.ro [{ rebindings := Example.set_new_empty, rebindings_nel := 1 }]
    Example.sect4 0 3000 4000 2000 Example.w0 3 (by decide) (by decide)).2.2.2.1 (by decide)

/-- C15 as stated fails: slot 0 of the example section (address 1000, name
`_m`) holds 7000 and no entry of the registry `f -> 9100` capturing into
address 1000 is named `m`; after the pass the slot holds 7008, the old value
of the slot of `_f`. -/
theorem unmatched_slot_untouched_fails_on_alias :
    0 < Example.sect.size / sizeof_ptr ∧
    (∀ e ∈ search_order (Example.regs_f 1000),
      strcmp_at Example.ro.byte
        (slot_symbol_name Example.ro Example.sect 3000 4000 2000 0 + 1) e.name ≠ 0) ∧
    slot_addr Example.sect 0 0 = 1000 ∧
    Example.w0.mem 1000 = 7000 ∧
    (perform_rebinding_with_section Example.ro (Example.regs_f 1000) Example.sect 0 3000 4000
      2000 Example.w0).mem 1000 = 7008 := by
  decide

/-- C15 (amended): for every slot `i` of a section whose resolved name with
its first character removed equals the name of no entry of any registry node:
the loop body for slot `i` returns memory and the record of capture stores as
it received them; the pass makes no capture store on account of slot `i`; and
after the whole pass slot `i` holds its old value provided no capture output
of the registry is the address of slot `i`. -/
theorem unmatched_slot_untouched (ro : ROMem) (rebindings : List rebindings_entry)
    (sect : section_t) (slide : Int) (symtab strtab indirect_symtab : Nat) (w : World) (i : Nat)
    (hi : i < sect.size / sizeof_ptr)
    (hno : ∀ e ∈ search_order rebindings,
      strcmp_at ro.byte (slot_symbol_name ro sect symtab strtab indirect_symtab i + 1) e.name
        ≠ 0) :
    i ∈ List.range (sect.size / sizeof_ptr) ∧
    (∀ w2 : World,
      slot_body ro rebindings (indirect_symtab + sizeof_uint32 * sect.reserved1)
        (uadd (to_uintptr slide) sect.addr) symtab strtab w2 i = w2) ∧
    (∃ new, (perform_rebinding_with_section ro rebindings sect slide symtab strtab
        indirect_symtab w).captured = new ++ w.captured ∧
      ∀ c ∈ new, c.slot ≠ slot_addr sect slide i) ∧
    (no_capture_at rebindings (slot_addr sect slide i) →
      (perform_rebinding_with_section ro rebindings sect slide symtab strtab
        indirect_symtab w).mem (slot_addr sect slide i) = w.mem (slot_addr sect slide i)) := by
  have hm : slot_match ro rebindings sect symtab strtab indirect_symtab i = none := by
    unfold slot_match
    split
    · unfold first_match
      rw [List.find?_eq_none]
      intro e he
      simpa using hno e he
    · rfl
  refine ⟨List.mem_range.mpr hi, ?_, ?_, ?_⟩
  · intro w2
    exact slot_body_skip ro rebindings sect slide symtab strtab indirect_symtab w2 i hm
  · exact perform_unmatched_captured ro rebindings sect slide symtab strtab indirect_symtab w i hm
  · intro hna
    exact perform_unmatched_mem ro rebindings sect slide symtab strtab indirect_symtab w i hm hna

/-- The instance of `unmatched_slot_untouched` at slot 1 of the example section
(name `_f`) with the registry `m -> 9001` capturing into 500. -/
theorem unmatched_slot_untouched_witness :
    (perform_rebinding_with_section Example.ro Example.regs1 Example.sect 0 3000 4000 2000
      Example.w0).mem (slot_addr Example.sect 0 1) = Example.w0.mem (slot_addr Example.sect 0 1) :=
  (unmatched_slot_untouched Example.ro Example.regs1 Example.sect 0 3000 4000 2000 Example.w0 1
    (by decide) (by decide)).2.2.2 (by decide)

/-! ## C18: the slots of a section -/

/-- C18 as stated fails: the example section has 2 slots (addresses 1000 and
1008); the word at index 2 (address 1016) holds 7016 and is the capture output
of the registry `m -> 9001`; after the pass it holds 7000, the old value of the
slot of `_m`. -/
theorem slot_range_fails_on_capture_output :
    Example.sect.size / sizeof_ptr = 2 ∧
    slot_addr Example.sect 0 2 = 1016 ∧
    Example.w0.mem 1016 = 7016 ∧
    (perform_rebinding_with_section Example.ro (Example.regs_m 1016) Example.sect 0 3000 4000
      2000 Example.w0).mem 1016 = 7000 := by
  decide

/-- C18 (amended): slot `i` of a section is the word at
`(slide + section.addr) mod 2^64 + i * 8` and is resolved through entry number
`section.reserved1 + i` of the indirect symbol table; the pass handles exactly
the slots `0 <= i < floor(section.size / 8)`, in order, storing into a slot only
when it has a match; every capture store of the pass is made on account of one
of these slots; and every word that is neither one of these slots nor a capture
output of the registry is unchanged, in particular every word at index
`>= floor(section.size / 8)` (also a trailing partial word) that is not a
capture output of the registry. -/
theorem slot_range_and_index (ro : ROMem) (rebindings : List rebindings_entry)
    (sect : section_t) (slide : Int) (symtab strtab indirect_symtab : Nat) (w : World) :
    (∀ i, slot_addr sect slide i =
      ((slide + (sect.addr : Int)) % ((2 : Int) ^ 64)).toNat + 8 * i) ∧
    (∀ i, slot_symtab_index ro sect indirect_symtab i =
      ro.u32 (indirect_symtab + 4 * (sect.reserved1 + i))) ∧
    perform_rebinding_with_section ro rebindings sect slide symtab strtab indirect_symtab w =
      (List.range (sect.size / 8)).foldl (fun w i =>
        (slot_match ro rebindings sect symtab strtab indirect_symtab i).elim w
          (fun r => apply_rebinding r (slot_addr sect slide i) w)) w ∧
    (∃ new, (perform_rebinding_with_section ro rebindings sect slide symtab strtab
        indirect_symtab w).captured = new ++ w.captured ∧
      ∀ c ∈ new, ∃ i, i < sect.size / 8 ∧ c.slot = slot_addr sect slide i) ∧
    (∀ a, (∀ i, i < sect.size / 8 → a ≠ slot_addr sect slide i) → no_capture_at rebindings a →
      (perform_rebinding_with_section ro rebindings sect slide symtab strtab
        indirect_symtab w).mem a = w.mem a) ∧
    ∀ k, sect.size / 8 ≤ k → no_capture_at rebindings (slot_addr sect slide k) →
      (perform_rebinding_with_section ro rebindings sect slide symtab strtab
        indirect_symtab w).mem (slot_addr sect slide k) = w.mem (slot_addr sect slide k) := by
  have hframe : ∀ a, (∀ i, i < sect.size / 8 → a ≠ slot_addr sect slide i) →
      no_capture_at rebindings a →
      (perform_rebinding_with_section ro rebindings sect slide symtab strtab
        indirect_symtab w).mem a = w.mem a := by
    intro a ha hna
    rw [perform_rebinding_with_section_eq]
    apply run_patches_mem_other
    intro p hp
    obtain ⟨j, hj, hmj, hpj⟩ := (mem_section_patches _ _ _ _ _ _ _ _).mp hp
    refine ⟨?_, hna p.2 (first_match_some _ _ _ _ (slot_match_some _ _ _ _ _ _ _ _ hmj).2).1⟩
    rw [hpj]
    exact ha j hj
  refine ⟨?_, ?_, ?_, ?_, hframe, ?_⟩
  · intro i
    unfold slot_addr uadd to_uintptr UINTPTR_MOD sizeof_ptr
    omega
  · intro i
    unfold slot_symtab_index sizeof_uint32
    congr 1
    omega
  · unfold perform_rebinding_with_section
    apply List.foldl_ext
    intro w1 i _
    rw [slot_body_eq]
    cases slot_match ro rebindings sect symtab strtab indirect_symtab i <;> rfl
  · obtain ⟨new, hnew, hall⟩ := perform_captured_slot ro rebindings sect slide symtab strtab
      indirect_symtab w
    refine ⟨new, hnew, fun c hc => ?_⟩
    obtain ⟨i, r, hi, _, hslot, _, _⟩ := hall c hc
    exact ⟨i, hi, hslot⟩
  · intro k hk hna
    apply hframe _ _ hna
    intro i hi h
    have := slot_addr_inj sect slide k i h
    omega

/-- The instance of `slot_range_and_index` on the example section with the
registry `m -> 9001` capturing into 500: the word at index 2 is unchanged. -/
theorem slot_range_and_index_witness :
    (perform_rebinding_with_section Example.ro Example.regs1 Example.sect 0 3000 4000 2000
      Example.w0).mem (slot_addr Example.sect 0 2) = Example.w0.mem (slot_addr Example.sect 0 2) :=
  (slot_range_and_index Example.ro Example.regs1 Example.sect 0 3000 4000 2000
    Example.w0).2.2.2.2.2 2 (by decide) (by decide)

/-! ## C19: what a capture output holds after a scan -/

theorem new_captures_append (ps qs : List (Nat × rebinding)) (mem : Nat → Nat) :
    new_captures (ps ++ qs) mem = new_captures qs mem ++ new_captures ps mem := by
  unfold new_captures
  simp [List.filter_append]

theorem new_captures_mem (ps : List (Nat × rebinding)) (mem : Nat → Nat) (c : Capture)
    (hc : c ∈ new_captures ps mem) :
    ∃ p ∈ ps, c.slot = p.1 ∧ c.out = p.2.replaced ∧ c.value = mem p.1 ∧
      p.2.replaced ≠ 0 ∧ mem p.1 ≠ p.2.replacement := by
  unfold new_captures at hc
  simp only [List.mem_reverse, List.mem_map, List.mem_filter, decide_eq_true_eq] at hc
  obtain ⟨p, ⟨hp, hg⟩, rfl⟩ := hc
  exact ⟨p, hp, rfl, rfl, rfl, hg.1, hg.2⟩

theorem run_patches_mem_out (ps : List (Nat × rebinding)) (w : World) (a : Nat)
    (hs : separated ps) (ha : ∀ p ∈ ps, a ≠ p.1) :
    (run_patches ps w).mem a =
      ((new_captures ps w.mem).find? (fun c => decide (c.out = a))).elim (w.mem a)
        (fun c => c.value) := by
  induction ps generalizing w with
  | nil => rfl
  | cons q qs ih =>
    have haq := ha q (List.mem_cons_self _ _)
    have hc : new_captures qs (apply_rebinding q.2 q.1 w).mem = new_captures qs w.mem := by
      apply new_captures_congr
      intro p hp
      exact apply_rebinding_mem_other _ _ _ _ (Ne.symm ((List.pairwise_cons.mp hs.1).1 p hp))
        (hs.2 p (List.mem_cons_of_mem _ hp) q (List.mem_cons_self _ _))
    rw [run_patches_cons, ih _ (separated_tail q qs hs)
      (fun p hp => ha p (List.mem_cons_of_mem _ hp)), hc, new_captures_cons, List.find?_append]
    cases hf : (new_captures qs w.mem).find? (fun c => decide (c.out = a)) with
    | some c => rfl
    | none =>
      simp only [Option.none_or, Option.elim]
      by_cases hg : q.2.replaced ≠ 0 ∧ w.mem q.1 ≠ q.2.replacement
      · rw [if_pos hg]
        by_cases hout : q.2.replaced = a
        · simp only [List.find?_cons, hout, decide_True]
          unfold apply_rebinding
          rw [if_pos hg]
          simp [store, haq, hout]
        · simp only [List.find?_cons, hout, decide_False, List.find?_nil]
          exact apply_rebinding_mem_other _ _ _ _ haq (Or.inr hout)
      · rw [if_neg hg]
        simp only [List.find?_nil]
        unfold apply_rebinding
        rw [if_neg hg]
        simp [store, haq]

/-- C19 as stated fails: the second example image has two slots named `_m`
(addresses 1000 and 1008, old values 7000 and 7008) followed by one slot named
`_f` (address 1016, old value 7016).  With the single set `m -> 9001,
f -> 9100`, both capturing into address 500, the two slots of `_m` resolve to
the same first-matching substitution, which requests capture, and both differ
from its replacement 9001; the last of them in scan order held 7008.  Yet after
the scan the capture output 500 holds 7016, which the capture store of the
substitution for `f` wrote there afterwards. -/
theorem capture_last_differing_fails_on_shared_output :
    image_patches Example.ro3 Example.regs_shared Example.header3 0 =
      [(1000, { name := Example.name_m, replacement := 9001, replaced := 500 }),
       (1008, { name := Example.name_m, replacement := 9001, replaced := 500 }),
       (1016, { name := Example.name_f, replacement := 9100, replaced := 500 })] ∧
    Example.w0.mem 1000 = 7000 ∧
    Example.w0.mem 1008 = 7008 ∧
    Example.w0.mem 1016 = 7016 ∧
    (rebind_symbols_for_image Example.ro3 Example.regs_shared Example.header3 0
      Example.w0).mem 500 = 7016 := by
  decide

/-- C19 (amended): let the slots a scan of an image patches be pairwise
distinct addresses, none of them a capture output of a matching entry, and let
`a` be an address that is not a patched slot.  If, in scan order, `(s, e)` is
the last patched slot whose deciding entry captures into `a` and whose value
before the scan differed from that entry's replacement, then after the scan
`a` holds the value slot `s` held before the scan.  If every patched slot
whose deciding entry captures into `a` already held that entry's replacement
before the scan, then the scan makes no capture store to `a` and `a` keeps its
content. -/
theorem capture_last_differing (ro : ROMem) (rebindings : List rebindings_entry)
    (header : mach_header) (slide : Int) (w : World) (a : Nat)
    (hsep : separated (image_patches ro rebindings header slide))
    (ha : ∀ p ∈ image_patches ro rebindings header slide, a ≠ p.1) :
    (∀ pre s e post, image_patches ro rebindings header slide = pre ++ (s, e) :: post →
      e.replaced = a → a ≠ 0 → w.mem s ≠ e.replacement →
      (∀ q ∈ post, q.2.replaced = a → w.mem q.1 = q.2.replacement) →
      (rebind_symbols_for_image ro rebindings header slide w).mem a = w.mem s) ∧
    ((∀ q ∈ image_patches ro rebindings header slide,
        q.2.replaced = a → w.mem q.1 = q.2.replacement) →
      (rebind_symbols_for_image ro rebindings header slide w).mem a = w.mem a ∧
      ∃ new, (rebind_symbols_for_image ro rebindings header slide w).captured
          = new ++ w.captured ∧
        ∀ c ∈ new, c.out ≠ a) := by
  have hnone : ∀ l : List (Nat × rebinding),
      (∀ q ∈ l, q.2.replaced = a → w.mem q.1 = q.2.replacement) →
      (new_captures l w.mem).find? (fun c => decide (c.out = a)) = none := by
    intro l hl
    rw [List.find?_eq_none]
    intro c hc
    obtain ⟨p, hp, _, hout, _, _, hne⟩ := new_captures_mem l w.mem c hc
    simp only [decide_eq_true_eq]
    intro h
    exact hne (hl p hp (hout ▸ h))
  rw [rebind_symbols_for_image_eq]
  refine ⟨?_, ?_⟩
  · intro pre s e post hsplit he ha0 hdiff hpost
    rw [run_patches_mem_out _ w a hsep ha, hsplit, new_captures_append, new_captures_cons]
    have hg : e.replaced ≠ 0 ∧ w.mem s ≠ e.replacement := ⟨by rw [he]; exact ha0, hdiff⟩
    simp only [List.find?_append, hnone post hpost, Option.none_or]
    rw [if_pos hg]
    simp [he]
  · intro hall
    refine ⟨?_, new_captures (image_patches ro rebindings header slide) w.mem,
      run_patches_captured _ w hsep, ?_⟩
    · rw [run_patches_mem_out _ w a hsep ha, hnone _ hall]
      rfl
    · intro c hc h
      obtain ⟨p, hp, _, hout, _, _, hne⟩ := new_captures_mem _ w.mem c hc
      exact hne (hall p hp (hout ▸ h))

/-- Two instances of `capture_last_differing` on the second example image
with the set `m -> 9001, f -> 9100` capturing into 500.  From memory `w3` the
patches are the two slots of `_m` and the slot of `_f`; the last slot that
differs from its replacement is the second slot of `_m` (the slot of `_f` after
it already holds 9100), and location 500 receives its old value 7008.  From
memory `w3_done` every patched slot already holds its replacement and location
500 keeps its content. -/
theorem capture_last_differing_witness :
    (rebind_symbols_for_image Example.ro3 Example.regs_shared Example.header3 0 Example.w3).mem
        500 = Example.w3.mem 1008 ∧
    (rebind_symbols_for_image Example.ro3 Example.regs_shared Example.header3 0
        Example.w3_done).mem 500 = Example.w3_done.mem 500 :=
  ⟨(capture_last_differing Example.ro3 Example.regs_shared Example.header3 0 Example.w3 500
      (by decide) (by decide)).1
      [(1000, { name := Example.name_m, replacement := 9001, replaced := 500 })]
      1008 { name := Example.name_m, replacement := 9001, replaced := 500 }
      [(1016, { name := Example.name_f, replacement := 9100, replaced := 500 })]
      (by decide) rfl (by decide) (by decide) (by decide),
    ((capture_last_differing Example.ro3 Example.regs_shared Example.header3 0 Example.w3_done
      500 (by decide) (by decide)).2 (by decide)).1⟩

end Fishhook
